import Mathlib

/-! # Detective Quest (`algoritmos_avancados.c`)

A shallow embedding of the program: the mansion map (binary tree of rooms), the
dossier (binary search tree of collected clue texts), the suspect registry
(hash table with chaining), the exploration loop and the final accusation.

Conventions of the embedding

* A C string is the list of its bytes before the terminating NUL, each byte as a
  `Nat` (`CStr`).  `cabe cap s` says that `s` is a well-formed C string that fits
  a `char[cap]` field; `strcpy` into such a field is then an exact copy, which is
  how the field assignments are modelled.
* Heap structures owned through pointers (`Sala*`, `PistaNode*`, `HashItem*`) are
  inductive values; the null pointer is the `null`/`nil` constructor or the empty
  list.  In-place updates return the updated value.  `malloc` is taken to succeed.
* `printf` output is a list of `Msg` events, one constructor per message of the
  source (consecutive `printf` calls that always run together are one event).
* Whether plain `char` is signed is implementation-defined; the functions that
  depend on it (through `hash`) take it as the parameter `sc`.
-/

namespace DetectiveQuest

/-- Bytes of a C string, without the terminating NUL. -/
abbrev CStr := List Nat

/-- The string `s` is a well-formed C string fitting a `char[cap]` field: fewer
than `cap` bytes, none of them NUL, each one a byte. -/
def cabe (cap : Nat) (s : CStr) : Prop :=
  s.length < cap ∧ ∀ b ∈ s, 0 < b ∧ b < 256

instance (cap : Nat) (s : CStr) : Decidable (cabe cap s) := by
  unfold cabe
  infer_instance

/-- UTF-8 bytes of one character (the source file is UTF-8 text). -/
def utf8 (c : Char) : List Nat :=
  let n := c.toNat
  if n < 128 then [n]
  else if n < 2048 then [192 + n / 64, 128 + n % 64]
  else if n < 65536 then [224 + n / 4096, 128 + n / 64 % 64, 128 + n % 64]
  else [240 + n / 262144, 128 + n / 4096 % 64, 128 + n / 64 % 64, 128 + n % 64]

/-- The C string denoted by a string literal of the source. -/
def cstr (s : String) : CStr := s.data.flatMap utf8

/-- Model of `strcmp`: bytes are compared as `unsigned char`, the end of a string
counting as the smallest byte.  Only the sign of the result is specified by C;
the model returns `-1`, `0` or `1`. -/
def strcmp : CStr → CStr → Int
  | [], [] => 0
  | [], _ :: _ => -1
  | _ :: _, [] => 1
  | a :: as, b :: bs => if a < b then -1 else if b < a then 1 else strcmp as bs

/-- The constant `HASH_SIZE` (`#define HASH_SIZE 10`). -/
def HASH_SIZE : Nat := 10

/-- One message printed by the source. -/
inductive Msg where
  /-- line 149: `[PISTA ENCONTRADA]: "%s" adicionada ao dossiê.` -/
  | pistaEncontrada (pista : CStr)
  /-- line 173: `- %s` -/
  | linhaPista (pista : CStr)
  /-- line 192: `--- EXPLORAÇÃO INICIADA: DETECTIVE QUEST ---` -/
  | exploracaoIniciada
  /-- lines 195-196: `VOCÊ ESTÁ EM: **%s**` -/
  | voceEstaEm (nome : CStr)
  /-- line 200: `[ALERTA]: Pista detectada! Coletando...` -/
  | alerta
  /-- line 216: `FIM DE LINHA: Este cômodo não tem mais caminhos.` -/
  | fimDeLinha
  /-- lines 219-220: the available paths and the prompt for a choice -/
  | caminhos (esquerda direita : Bool)
  /-- line 224: `--- O detetive optou por encerrar a investigação na mansão ---` -/
  | encerrar
  /-- line 234: `Escolha inválida ou caminho bloqueado. Tente novamente.` -/
  | escolhaInvalida
  /-- line 259: `-> [VÁLIDA]: "%s" associa-se a %s.` -/
  | valida (pista acusado : CStr)
  /-- line 261: `-> [IRRELEVANTE]: "%s" associa-se a %s.` -/
  | irrelevante (pista suspeito : CStr)
  /-- line 263: `-> [SEM ASSOCIAÇÃO]: "%s" não está mapeada ...` -/
  | semAssociacao (pista : CStr)
  /-- lines 280-282: `--- FASE FINAL: ACUSAÇÃO DO CULPADO ---` -/
  | faseFinal
  /-- line 285: `Não há pistas coletadas. O caso não pode ser concluído.` -/
  | semPistas
  /-- lines 289-290: the list of suspects and the prompt for the accusation -/
  | pedirAcusacao
  /-- line 293: `--- VERIFICAÇÃO DE EVIDÊNCIAS CONTRA %s ---` -/
  | verificacao (acusado : CStr)
  /-- line 296: `RESUMO: %s está relacionado(a) a %d pistas válidas.` -/
  | resumo (acusado : CStr) (pistas_validas : Nat)
  /-- line 300: `=> SUCESSO! HÁ EVIDÊNCIAS SUFICIENTES PARA PRENDER %s! ...` -/
  | sucesso (acusado : CStr)
  /-- line 302: `=> FRACASSO! EVIDÊNCIAS INSUFICIENTES. %s FOI LIBERADO(A). ...` -/
  | fracasso (acusado : CStr)
  /-- line 397: `--- PISTAS COLETADAS (Em Ordem Alfabética) ---` -/
  | pistasColetadas
  /-- line 399: the rule closing the list of clues -/
  | fimPistas
  deriving DecidableEq

/-! ## 1. Data structures -/

/-- A `Sala*`: null, or a room with its name, its clue and its two children. -/
inductive Sala where
  | null
  | mk (nome pista_estatica : CStr) (esquerda direita : Sala)
  deriving DecidableEq

/-- A `PistaNode*`: null, or a dossier node with its text and its two children. -/
inductive PistaNode where
  | null
  | mk (pista : CStr) (esquerda direita : PistaNode)
  deriving DecidableEq

/-- The payload of a `HashItem`; the `proximo` link is the tail of the chain. -/
structure HashItem where
  chave_pista : CStr
  valor_suspeito : CStr
  deriving DecidableEq

/-- The table of `HASH_SIZE` chains. -/
structure HashTable where
  tabela : Fin HASH_SIZE → List HashItem

/-! ## 2. Map -/

/-- Function `criarSala`: a fresh room without children. -/
def criarSala (nome_sala conteudo_pista : CStr) : Sala :=
  .mk nome_sala conteudo_pista .null .null

/-! ## 3. Hash table -/

/-- Value of the `char` holding byte `b`, as added to `valor` in `hash`. -/
def charVal (sc : Bool) (b : Nat) : Int :=
  if sc && decide (128 ≤ b) then (b : Int) - 256 else (b : Int)

/-- The loop of `hash`: `valor += chave[i]` in `unsigned int` (32 bits). -/
def hashLoop (sc : Bool) : CStr → Nat → Nat
  | [], valor => valor
  | c :: resto, valor => hashLoop sc resto (((valor : Int) + charVal sc c) % 2 ^ 32).toNat

/-- Function `hash`: sum of the characters, modulo `HASH_SIZE`. -/
def hash (sc : Bool) (chave : CStr) : Nat :=
  hashLoop sc chave 0 % HASH_SIZE

/-- The value of `hash` as an index into `tabela`. -/
def indice (sc : Bool) (chave : CStr) : Fin HASH_SIZE :=
  ⟨hash sc chave, Nat.mod_lt _ (by decide)⟩

/-- Function `inserirNaHash`: a new item is put at the head of the chain of its bucket. -/
def inserirNaHash (sc : Bool) (ht : HashTable) (pista suspeito : CStr) : HashTable :=
  let novoItem : HashItem := { chave_pista := pista, valor_suspeito := suspeito }
  { tabela := Function.update ht.tabela (indice sc pista)
      (novoItem :: ht.tabela (indice sc pista)) }

/-- The string literal returned by `encontrarSuspeito` when no item matches. -/
def DESCONHECIDO : CStr := cstr "DESCONHECIDO"

/-- The `while` loop of `encontrarSuspeito` over one chain. -/
def procurar (pista : CStr) : List HashItem → CStr
  | [] => DESCONHECIDO
  | atual :: proximo =>
    if strcmp atual.chave_pista pista = 0 then atual.valor_suspeito
    else procurar pista proximo

/-- Function `encontrarSuspeito`: the value of the first item of the bucket's chain whose key is `pista`. -/
def encontrarSuspeito (sc : Bool) (ht : HashTable) (pista : CStr) : CStr :=
  procurar pista (ht.tabela (indice sc pista))

/-! ## 4. Dossier (binary search tree) -/

/-- Function `criarPistaNode`: a fresh node without children. -/
def criarPistaNode (conteudo_pista : CStr) : PistaNode :=
  .mk conteudo_pista .null .null

/-- Function `inserirPista`: the root after the call, and what the call printed. -/
def inserirPista : PistaNode → CStr → PistaNode × List Msg
  | .null, pista_coletada =>
    (criarPistaNode pista_coletada, [.pistaEncontrada pista_coletada])
  | .mk pista esquerda direita, pista_coletada =>
    let comparacao := strcmp pista_coletada pista
    if comparacao < 0 then
      let r := inserirPista esquerda pista_coletada
      (.mk pista r.1 direita, r.2)
    else if comparacao > 0 then
      let r := inserirPista direita pista_coletada
      (.mk pista esquerda r.1, r.2)
    else (.mk pista esquerda direita, [])

/-- Function `exibirPistas`: the texts printed, one per line (`- %s`), in printing order. -/
def exibirPistas : PistaNode → List CStr
  | .null => []
  | .mk pista esquerda direita => exibirPistas esquerda ++ pista :: exibirPistas direita

/-! ## 5. Exploration and final accusation -/

/-- Side of a child link. -/
inductive Lado where
  | esquerda
  | direita
  deriving DecidableEq

/-- Test `p != NULL` on a room pointer. -/
def Sala.existe : Sala → Bool
  | .null => false
  | .mk _ _ _ _ => true

/-- The room pointer reached from `s` by following the child links of a path
(null once the path leaves the tree). -/
def Sala.em : Sala → List Lado → Sala
  | s, [] => s
  | .null, _ :: _ => .null
  | .mk _ _ esquerda _, .esquerda :: p => esquerda.em p
  | .mk _ _ _ direita, .direita :: p => direita.em p

/-- The map after `strcpy(atual->pista_estatica, "")` on the room at a path. -/
def Sala.limpar : Sala → List Lado → Sala
  | .null, _ => .null
  | .mk nome _ esquerda direita, [] => .mk nome [] esquerda direita
  | .mk nome pista esquerda direita, .esquerda :: p =>
    .mk nome pista (esquerda.limpar p) direita
  | .mk nome pista esquerda direita, .direita :: p =>
    .mk nome pista esquerda (direita.limpar p)

/-- State of `explorarSalas`: the rooms reachable from `mapa_raiz`, the pointer
`atual` as the path leading to it from `mapa_raiz`, the dossier `*pistas_raiz`,
the output so far, and whether the loop was left through `break`. -/
structure Exploracao where
  mapa : Sala
  atual : List Lado
  pistas : PistaNode
  saida : List Msg
  encerrada : Bool
  deriving DecidableEq

/-- Lines 195-220 of the loop body: announce the room, collect its clue if it has
one, show the available paths; ends where `scanf` waits for the choice.  `none`
stands for the dereference of a null `atual`. -/
def visitar (e : Exploracao) : Option Exploracao :=
  match e.mapa.em e.atual with
  | .null => none
  | .mk nome pista_estatica esquerda direita =>
    let e1 : Exploracao := { e with saida := e.saida ++ [.voceEstaEm nome] }
    let e2 : Exploracao :=
      if strcmp pista_estatica [] ≠ 0 then
        let r := inserirPista e1.pistas pista_estatica
        { e1 with
          mapa := e1.mapa.limpar e1.atual
          pistas := r.1
          saida := e1.saida ++ [.alerta] ++ r.2 }
      else e1
    let fim : List Msg :=
      if esquerda.existe || direita.existe then [] else [.fimDeLinha]
    some { e2 with
      saida := e2.saida ++ fim ++ [.caminhos esquerda.existe direita.existe] }

/-- Lines 223-239 of the loop body, after `scanf(" %c", &escolha)` has stored the
byte `escolha`. -/
def escolher (e : Exploracao) (escolha : Nat) : Exploracao :=
  if escolha = 115 ∨ escolha = 83 then  -- 's', 'S'
    { e with saida := e.saida ++ [.encerrar], encerrada := true }
  else
    match e.mapa.em e.atual with
    | .null => e
    | .mk _ _ esquerda direita =>
      if (escolha = 101 ∨ escolha = 69) ∧ esquerda.existe then  -- 'e', 'E'
        { e with atual := e.atual ++ [.esquerda] }
      else if (escolha = 100 ∨ escolha = 68) ∧ direita.existe then  -- 'd', 'D'
        { e with atual := e.atual ++ [.direita] }
      else
        { e with saida := e.saida ++ [.escolhaInvalida] }

/-- The `while (1)` loop of `explorarSalas` on the choices typed so far: the state
at the `break`, or, when the choices run out first, the state in which `scanf`
waits for the next one. -/
def laco : Exploracao → List Nat → Option Exploracao
  | e, [] => visitar e
  | e, escolha :: resto =>
    match visitar e with
    | none => none
    | some e1 =>
      let e2 := escolher e1 escolha
      if e2.encerrada then some e2 else laco e2 resto

/-- Function `explorarSalas(mapa_raiz, &pistas_raiz)` on the choices `entrada`. -/
def explorarSalas (mapa_raiz : Sala) (pistas_raiz : PistaNode) (entrada : List Nat) :
    Option Exploracao :=
  laco { mapa := mapa_raiz, atual := [], pistas := pistas_raiz,
         saida := [.exploracaoIniciada], encerrada := false } entrada

/-- Function `contarPistasPorSuspeito`: the value of `*contador` after the call, and
what the call printed.  The `int` counter is a `Nat`: it grows by at most one per
node of the dossier. -/
def contarPistasPorSuspeito (sc : Bool) : PistaNode → HashTable → CStr → Nat → Nat × List Msg
  | .null, _, _, contador => (contador, [])
  | .mk pista esquerda direita, ht, acusado, contador =>
    let r1 := contarPistasPorSuspeito sc esquerda ht acusado contador
    let suspeito_associado := encontrarSuspeito sc ht pista
    let r2 : Nat × List Msg :=
      if strcmp suspeito_associado acusado = 0 then
        (r1.1 + 1, [.valida pista acusado])
      else if strcmp suspeito_associado DESCONHECIDO ≠ 0 then
        (r1.1, [.irrelevante pista suspeito_associado])
      else
        (r1.1, [.semAssociacao pista])
    let r3 := contarPistasPorSuspeito sc direita ht acusado r2.1
    (r3.1, r1.2 ++ r2.2 ++ r3.2)

/-- Function `verificarSuspeitoFinal`, where `acusado` is the token `scanf(" %49s")` reads
when the dossier is not empty: what the call prints. -/
def verificarSuspeitoFinal (sc : Bool) (pistas_raiz : PistaNode) (ht : HashTable)
    (acusado : CStr) : List Msg :=
  match pistas_raiz with
  | .null => [.faseFinal, .semPistas]
  | .mk _ _ _ =>
    let r := contarPistasPorSuspeito sc pistas_raiz ht acusado 0
    let pistas_validas := r.1
    [.faseFinal, .pedirAcusacao, .verificacao acusado] ++ r.2 ++
      [.resumo acusado pistas_validas] ++
      (if pistas_validas ≥ 2 then [.sucesso acusado] else [.fracasso acusado])

/-! ## 7. The data wired in `main` -/

/-- The assignments `s->esquerda = e; s->direita = d`. -/
def ligar : Sala → Sala → Sala → Sala
  | .null, _, _ => .null
  | .mk nome pista_estatica _ _, e, d => .mk nome pista_estatica e d

/-- The mansion assembled in `main` (lines 352-376). -/
def mansao : Sala :=
  let hall_entrada := criarSala (cstr "Hall de Entrada")
    (cstr "Um relógio de bolso com as iniciais 'M.S.' foi derrubado na entrada.")
  let sala_estar := criarSala (cstr "Sala de Estar") (cstr "")
  let jardim_inverno := criarSala (cstr "Jardim de Inverno")
    (cstr "Havia terra recém-cavada sob o vaso de palmeira.")
  let cozinha := criarSala (cstr "Cozinha")
    (cstr "Uma colher de prata foi abandonada na pia, suja de molho.")
  let biblioteca := criarSala (cstr "Biblioteca")
    (cstr "A chave do armário de licores foi deixada entre os livros de botânica.")
  let escritorio := criarSala (cstr "Escritório") (cstr "")
  let piscina := criarSala (cstr "Área da Piscina")
    (cstr "Encontrei um boné de jardineiro flutuando na borda.")
  let despensa := criarSala (cstr "Despensa")
    (cstr "Uma embalagem de remédio para alergia estava escondida sob um saco de farinha.")
  let porao := criarSala (cstr "Porão")
    (cstr "Um pedaço de pano manchado de vinho tinto foi deixado perto da escada.")
  let quarto_hospedes := criarSala (cstr "Quarto de Hóspedes") (cstr "")
  let sotao := criarSala (cstr "Sótão")
    (cstr "Um diário menciona um encontro secreto no jardim.")
  let cozinha := ligar cozinha despensa porao
  let biblioteca := ligar biblioteca quarto_hospedes sotao
  let sala_estar := ligar sala_estar cozinha biblioteca
  let jardim_inverno := ligar jardim_inverno escritorio piscina
  ligar hall_entrada sala_estar jardim_inverno

/-- The table `{ .tabela = {NULL} }`. -/
def tabelaVazia : HashTable := { tabela := fun _ => [] }

/-- The registry filled in `main` (lines 381-391). -/
def hash_suspeitos (sc : Bool) : HashTable :=
  let ht := tabelaVazia
  let ht := inserirNaHash sc ht
    (cstr "Um relógio de bolso com as iniciais 'M.S.' foi derrubado na entrada.")
    (cstr "Mordomo")
  let ht := inserirNaHash sc ht
    (cstr "A chave do armário de licores foi deixada entre os livros de botânica.")
    (cstr "Mordomo")
  let ht := inserirNaHash sc ht
    (cstr "Havia terra recém-cavada sob o vaso de palmeira.") (cstr "Jardineiro")
  let ht := inserirNaHash sc ht
    (cstr "Encontrei um boné de jardineiro flutuando na borda.") (cstr "Jardineiro")
  let ht := inserirNaHash sc ht
    (cstr "Um diário menciona um encontro secreto no jardim.") (cstr "Jardineiro")
  let ht := inserirNaHash sc ht
    (cstr "Uma colher de prata foi abandonada na pia, suja de molho.") (cstr "Cozinheira")
  inserirNaHash sc ht
    (cstr "Uma embalagem de remédio para alergia estava escondida sob um saco de farinha.")
    (cstr "Cozinheira")

/-- Function `main` on the choices `entrada` typed during the exploration and the
token `acusado` typed at the accusation: everything printed.  While the exploration
has not been left by a quit choice, only its output exists.  `none` stands for the
dereference of a null pointer. -/
def main (sc : Bool) (entrada : List Nat) (acusado : CStr) : Option (List Msg) :=
  match explorarSalas mansao .null entrada with
  | none => none
  | some e =>
    if e.encerrada then
      some (e.saida ++ [.pistasColetadas] ++ (exibirPistas e.pistas).map .linhaPista
        ++ [.fimPistas] ++ verificarSuspeitoFinal sc e.pistas (hash_suspeitos sc) acusado)
    else some e.saida

/-! ## Notions used to state the properties -/

/-- The dossier obtained from `raiz` by calling `inserirPista` on each text of a
sequence in turn, always continuing with the returned root. -/
def inserirTodas (raiz : PistaNode) (pistas : List CStr) : PistaNode :=
  pistas.foldl (fun r p => (inserirPista r p).1) raiz

/-- The registry obtained from `ht` by calling `inserirNaHash` on each pair of a
sequence in turn. -/
def inserirTodasNaHash (sc : Bool) (ht : HashTable) (pares : List (CStr × CStr)) :
    HashTable :=
  pares.foldl (fun h par => inserirNaHash sc h par.1 par.2) ht

/-- The non-empty clues of the rooms of a map (room, then left and right subtree). -/
def Sala.pistas : Sala → List CStr
  | .null => []
  | .mk _ pista_estatica esquerda direita =>
    (if strcmp pista_estatica [] ≠ 0 then [pista_estatica] else []) ++
      esquerda.pistas ++ direita.pistas

/-- Number of rooms of a map. -/
def Sala.numSalas : Sala → Nat
  | .null => 0
  | .mk _ _ esquerda direita => 1 + esquerda.numSalas + direita.numSalas

/-- Search-tree order of a dossier: at every node, the texts of the left subtree
compare below the node's text and those of the right subtree above it. -/
def Ordenada : PistaNode → Prop
  | .null => True
  | .mk pista esquerda direita =>
    Ordenada esquerda ∧ Ordenada direita ∧
      (∀ x ∈ exibirPistas esquerda, strcmp x pista < 0) ∧
      (∀ x ∈ exibirPistas direita, strcmp pista x < 0)

/-- The choice `escolha`, typed in a room with children `esquerda` and `direita`, is
invalid or blocked: it is not a quit, not a move to an existing left child and not a
move to an existing right child. -/
def escolhaBloqueada (esquerda direita : Sala) (escolha : Nat) : Prop :=
  ¬ (escolha = 115 ∨ escolha = 83) ∧
  ¬ ((escolha = 101 ∨ escolha = 69) ∧ esquerda.existe = true) ∧
  ¬ ((escolha = 100 ∨ escolha = 68) ∧ direita.existe = true)

instance (esquerda direita : Sala) (escolha : Nat) :
    Decidable (escolhaBloqueada esquerda direita escolha) := by
  unfold escolhaBloqueada
  infer_instance

/-- The field `nome` of a room (empty for the null pointer). -/
def Sala.nome : Sala → CStr
  | .null => []
  | .mk nome _ _ _ => nome

/-- The field `pista_estatica` of a room (empty for the null pointer). -/
def Sala.pista_estatica : Sala → CStr
  | .null => []
  | .mk _ pista_estatica _ _ => pista_estatica

/-- The text `c` as a list of clues: itself when it is not empty (the test of line
199), nothing otherwise. -/
def naoVazia (c : CStr) : List CStr :=
  if strcmp c [] ≠ 0 then [c] else []

/-- The map with the clue of every room on the way from the root to the room at
the path `p` (both included) emptied. -/
def Sala.limparAte : Sala → List Lado → Sala
  | .null, _ => .null
  | .mk nome _ esquerda direita, [] => .mk nome [] esquerda direita
  | .mk nome _ esquerda direita, .esquerda :: p =>
    .mk nome [] (esquerda.limparAte p) direita
  | .mk nome _ esquerda direita, .direita :: p =>
    .mk nome [] esquerda (direita.limparAte p)

/-- The non-empty clues of the rooms on the way from the root to the room at the
path `p` (both included), root first. -/
def Sala.pistasAte : Sala → List Lado → List CStr
  | .null, _ => []
  | .mk _ pista_estatica _ _, [] => naoVazia pista_estatica
  | .mk _ pista_estatica esquerda _, .esquerda :: p =>
    naoVazia pista_estatica ++ esquerda.pistasAte p
  | .mk _ pista_estatica _ direita, .direita :: p =>
    naoVazia pista_estatica ++ direita.pistasAte p

/-- The paths that lead from the root of a map to one of its rooms. -/
def Sala.caminhos : Sala → List (List Lado)
  | .null => []
  | .mk _ _ esquerda direita =>
    [] :: (esquerda.caminhos.map (fun p => Lado.esquerda :: p)
      ++ direita.caminhos.map (fun p => Lado.direita :: p))

/-- The rooms the loop of `explorarSalas` passes through on the choices typed so far:
the value of the pointer `atual` (as a path from the root) at each iteration of the
loop, in order. -/
def salasPercorridas : Exploracao → List Nat → List (List Lado)
  | e, [] => [e.atual]
  | e, escolha :: resto =>
    e.atual ::
      (match visitar e with
      | none => []
      | some e1 =>
        let e2 := escolher e1 escolha
        if e2.encerrada then [] else salasPercorridas e2 resto)

/-- The rooms the player enters during `explorarSalas(mapa_raiz, &pistas_raiz)` on
the choices `entrada`, as paths from the root. -/
def salasEntradas (mapa_raiz : Sala) (pistas_raiz : PistaNode) (entrada : List Nat) :
    List (List Lado) :=
  salasPercorridas { mapa := mapa_raiz, atual := [], pistas := pistas_raiz,
                     saida := [.exploracaoIniciada], encerrada := false } entrada

/-- The state `e` of an exploration of the map `m0` begun with the dossier `d0`, right
after the visit of its current room: the player stands in a room of the map, the
clues of the rooms on the way from the root to this room have been emptied and
inserted, in this order, into the dossier, and nothing else has changed. -/
def Explorado (m0 : Sala) (d0 : PistaNode) (e : Exploracao) : Prop :=
  (m0.em e.atual).existe = true ∧
  e.mapa = m0.limparAte e.atual ∧
  e.pistas = inserirTodas d0 (m0.pistasAte e.atual)

/-- The messages printed by `explorarSalas` (together with `inserirPista`). -/
def Msg.daExploracao : Msg → Bool
  | .exploracaoIniciada => true
  | .voceEstaEm _ => true
  | .alerta => true
  | .pistaEncontrada _ => true
  | .fimDeLinha => true
  | .caminhos _ _ => true
  | .encerrar => true
  | .escolhaInvalida => true
  | _ => false

/-! ## Properties of `strcmp` -/

theorem strcmp_self (a : CStr) : strcmp a a = 0 := by
  induction a with
  | nil => rfl
  | cons x xs ih => simp [strcmp, ih]

theorem strcmp_eq_zero {a b : CStr} : strcmp a b = 0 ↔ a = b := by
  constructor
  · intro h
    induction a generalizing b with
    | nil => cases b with
      | nil => rfl
      | cons y ys => simp [strcmp] at h
    | cons x xs ih => cases b with
      | nil => simp [strcmp] at h
      | cons y ys =>
        simp only [strcmp] at h
        split_ifs at h with h1 h2
        · omega
        · have hxy : x = y := by omega
          rw [hxy, ih h]
  · rintro rfl
    exact strcmp_self a

theorem strcmp_pos_iff {a b : CStr} : 0 < strcmp a b ↔ strcmp b a < 0 := by
  induction a generalizing b with
  | nil => cases b <;> simp [strcmp]
  | cons x xs ih => cases b with
    | nil => simp [strcmp]
    | cons y ys =>
      simp only [strcmp]
      split_ifs <;> first | omega | simp | exact ih

theorem strcmp_trans {a b c : CStr} (hab : strcmp a b < 0) (hbc : strcmp b c < 0) :
    strcmp a c < 0 := by
  induction a generalizing b c with
  | nil => cases c with
    | nil => cases b <;> simp [strcmp] at hab hbc
    | cons z zs => simp [strcmp]
  | cons x xs ih => cases b with
    | nil => simp [strcmp] at hab
    | cons y ys => cases c with
      | nil => simp [strcmp] at hbc
      | cons z zs =>
        simp only [strcmp] at hab hbc ⊢
        split_ifs at hab hbc ⊢ <;> first | omega | simp | exact ih hab hbc

theorem strcmp_irrefl (a : CStr) : ¬ strcmp a a < 0 := by
  simp [strcmp_self]

/-! ## The dossier is a search tree -/

theorem mem_exibirPistas_inserirPista (t : PistaNode) (p x : CStr) :
    x ∈ exibirPistas (inserirPista t p).1 ↔ x ∈ exibirPistas t ∨ x = p := by
  induction t with
  | null => simp [inserirPista, criarPistaNode, exibirPistas]
  | mk q l r ihl ihr =>
    simp only [inserirPista]
    split_ifs with h1 h2
    · simp only [exibirPistas, List.mem_append, List.mem_cons, ihl]
      tauto
    · simp only [exibirPistas, List.mem_append, List.mem_cons, ihr]
      tauto
    · have hpq : p = q := strcmp_eq_zero.mp (by omega)
      simp only [exibirPistas, List.mem_append, List.mem_cons, hpq]
      tauto

theorem ordenada_inserirPista (t : PistaNode) (p : CStr) (h : Ordenada t) :
    Ordenada (inserirPista t p).1 := by
  induction t with
  | null => simp [inserirPista, criarPistaNode, Ordenada, exibirPistas]
  | mk q l r ihl ihr =>
    obtain ⟨hl, hr, hlt, hgt⟩ := h
    simp only [inserirPista]
    split_ifs with h1 h2
    · refine ⟨ihl hl, hr, ?_, hgt⟩
      intro x hx
      rcases (mem_exibirPistas_inserirPista l p x).mp hx with hx | rfl
      · exact hlt x hx
      · exact h1
    · refine ⟨hl, ihr hr, hlt, ?_⟩
      intro x hx
      rcases (mem_exibirPistas_inserirPista r p x).mp hx with hx | rfl
      · exact hgt x hx
      · exact strcmp_pos_iff.mp h2
    · exact ⟨hl, hr, hlt, hgt⟩

theorem pairwise_exibirPistas (t : PistaNode) (h : Ordenada t) :
    (exibirPistas t).Pairwise (fun a b => strcmp a b < 0) := by
  induction t with
  | null => simp [exibirPistas]
  | mk q l r ihl ihr =>
    obtain ⟨hl, hr, hlt, hgt⟩ := h
    simp only [exibirPistas]
    rw [List.pairwise_append]
    refine ⟨ihl hl, ?_, ?_⟩
    · rw [List.pairwise_cons]
      exact ⟨hgt, ihr hr⟩
    · intro a ha b hb
      rcases List.mem_cons.mp hb with rfl | hb
      · exact hlt a ha
      · exact strcmp_trans (hlt a ha) (hgt b hb)

theorem inserirPista_presente (t : PistaNode) (p : CStr) (h : Ordenada t)
    (hp : p ∈ exibirPistas t) : inserirPista t p = (t, []) := by
  induction t with
  | null => simp [exibirPistas] at hp
  | mk q l r ihl ihr =>
    obtain ⟨hl, hr, hlt, hgt⟩ := h
    simp only [exibirPistas, List.mem_append, List.mem_cons] at hp
    simp only [inserirPista]
    split_ifs with h1 h2
    · rcases hp with hp | rfl | hp
      · rw [ihl hl hp]
      · exact absurd h1 (strcmp_irrefl p)
      · exact absurd (strcmp_trans h1 (hgt p hp)) (strcmp_irrefl p)
    · have h2' : strcmp q p < 0 := strcmp_pos_iff.mp h2
      rcases hp with hp | rfl | hp
      · exact absurd (strcmp_trans (hlt p hp) h2') (strcmp_irrefl p)
      · exact absurd h2' (strcmp_irrefl p)
      · rw [ihr hr hp]
    · rfl

theorem inserirTodas_append (t : PistaNode) (l : List CStr) (p : CStr) :
    inserirTodas t (l ++ [p]) = (inserirPista (inserirTodas t l) p).1 := by
  simp [inserirTodas, List.foldl_append]

theorem ordenada_inserirTodas (t : PistaNode) (l : List CStr) (h : Ordenada t) :
    Ordenada (inserirTodas t l) := by
  induction l generalizing t with
  | nil => exact h
  | cons p l ih => exact ih _ (ordenada_inserirPista t p h)

theorem mem_exibirPistas_inserirTodas (t : PistaNode) (l : List CStr) (x : CStr) :
    x ∈ exibirPistas (inserirTodas t l) ↔ x ∈ exibirPistas t ∨ x ∈ l := by
  induction l generalizing t with
  | nil => simp [inserirTodas]
  | cons p l ih =>
    have := ih (inserirPista t p).1
    simp only [inserirTodas, List.foldl_cons] at this ⊢
    rw [this, mem_exibirPistas_inserirPista, List.mem_cons]
    tauto

theorem nodup_of_pairwise_strcmp (l : List CStr)
    (h : l.Pairwise (fun a b => strcmp a b < 0)) : l.Nodup := by
  refine List.Pairwise.imp ?_ h
  intro a b hab heq
  subst heq
  exact strcmp_irrefl a hab

/-- C1: inserting any sequence of clue texts (each fitting the 100-byte field) one by
one with `inserirPista` into the empty dossier gives a tree whose in-order traversal
(`exibirPistas`) is strictly ascending for `strcmp`, holds exactly the texts of the
sequence, and holds none of them twice. -/
theorem inorder_of_inserted_sequence (pistas : List CStr)
    (_hcabe : ∀ p ∈ pistas, cabe 100 p) :
    (exibirPistas (inserirTodas .null pistas)).Pairwise (fun a b => strcmp a b < 0) ∧
    (∀ x, x ∈ exibirPistas (inserirTodas .null pistas) ↔ x ∈ pistas) ∧
    (exibirPistas (inserirTodas .null pistas)).Nodup := by
  have hord : Ordenada (inserirTodas .null pistas) :=
    ordenada_inserirTodas .null pistas trivial
  have hpw := pairwise_exibirPistas _ hord
  refine ⟨hpw, ?_, nodup_of_pairwise_strcmp _ hpw⟩
  intro x
  rw [mem_exibirPistas_inserirTodas]
  simp [exibirPistas]

theorem inorder_of_inserted_sequence_witness :
    (∀ p ∈ [cstr "b", cstr "a", cstr "b", cstr "c"], cabe 100 p) ∧
    exibirPistas (inserirTodas .null [cstr "b", cstr "a", cstr "b", cstr "c"])
      = [cstr "a", cstr "b", cstr "c"] ∧
    (exibirPistas (inserirTodas .null [cstr "b", cstr "a", cstr "b", cstr "c"])).Nodup :=
  ⟨by decide, by decide,
    (inorder_of_inserted_sequence [cstr "b", cstr "a", cstr "b", cstr "c"] (by decide)).2.2⟩

/-- C2: in a dossier built from the empty one by `inserirPista` calls, inserting a
text that some node already holds returns the very same tree, so the in-order
traversal is unchanged. -/
theorem duplicate_insert_returns_same_tree (pistas : List CStr) (p : CStr)
    (_hcabe : ∀ q ∈ pistas, cabe 100 q)
    (hp : p ∈ exibirPistas (inserirTodas .null pistas)) :
    (inserirPista (inserirTodas .null pistas) p).1 = inserirTodas .null pistas ∧
    exibirPistas (inserirPista (inserirTodas .null pistas) p).1
      = exibirPistas (inserirTodas .null pistas) := by
  have hord : Ordenada (inserirTodas .null pistas) :=
    ordenada_inserirTodas .null pistas trivial
  rw [inserirPista_presente _ p hord hp]
  exact ⟨rfl, rfl⟩

theorem duplicate_insert_returns_same_tree_witness :
    (∀ q ∈ [cstr "b", cstr "a", cstr "c"], cabe 100 q) ∧
    cstr "c" ∈ exibirPistas (inserirTodas .null [cstr "b", cstr "a", cstr "c"]) ∧
    (inserirPista (inserirTodas .null [cstr "b", cstr "a", cstr "c"]) (cstr "c")).1
      = inserirTodas .null [cstr "b", cstr "a", cstr "c"] :=
  ⟨by decide, by decide,
    (duplicate_insert_returns_same_tree [cstr "b", cstr "a", cstr "c"] (cstr "c")
      (by decide) (by decide)).1⟩

/-! ## The registry -/

theorem encontrarSuspeito_inserirNaHash_self (sc : Bool) (ht : HashTable) (k s : CStr) :
    encontrarSuspeito sc (inserirNaHash sc ht k s) k = s := by
  simp [encontrarSuspeito, inserirNaHash, procurar, strcmp_self]

theorem encontrarSuspeito_inserirNaHash_outra (sc : Bool) (ht : HashTable) (k k2 s : CStr)
    (h : k2 ≠ k) :
    encontrarSuspeito sc (inserirNaHash sc ht k2 s) k = encontrarSuspeito sc ht k := by
  have hne : strcmp k2 k ≠ 0 := fun h0 => h (strcmp_eq_zero.mp h0)
  by_cases hi : indice sc k = indice sc k2
  · simp [encontrarSuspeito, inserirNaHash, hi, procurar, hne]
  · simp [encontrarSuspeito, inserirNaHash, Function.update_noteq hi]

theorem encontrarSuspeito_inserirTodasNaHash_outras (sc : Bool) (ht : HashTable)
    (pares : List (CStr × CStr)) (k : CStr) (h : ∀ par ∈ pares, par.1 ≠ k) :
    encontrarSuspeito sc (inserirTodasNaHash sc ht pares) k = encontrarSuspeito sc ht k := by
  induction pares generalizing ht with
  | nil => rfl
  | cons par pares ih =>
    have h1 : par.1 ≠ k := h par (List.mem_cons_self _ _)
    have h2 : ∀ q ∈ pares, q.1 ≠ k := fun q hq => h q (List.mem_cons_of_mem _ hq)
    have := ih (inserirNaHash sc ht par.1 par.2) h2
    simp only [inserirTodasNaHash, List.foldl_cons] at this ⊢
    rw [this, encontrarSuspeito_inserirNaHash_outra sc ht k par.1 par.2 h1]

theorem encontrarSuspeito_tabelaVazia (sc : Bool) (k : CStr) :
    encontrarSuspeito sc tabelaVazia k = DESCONHECIDO := rfl

/-- C3: whatever the chains of the registry hold, looking a clue text up right after
`inserirNaHash` stored it with a suspect returns that suspect (texts fitting the
100-byte and 50-byte fields). -/
theorem lookup_after_insert (sc : Bool) (ht : HashTable) (k s : CStr)
    (_hk : cabe 100 k) (_hs : cabe 50 s) :
    encontrarSuspeito sc (inserirNaHash sc ht k s) k = s :=
  encontrarSuspeito_inserirNaHash_self sc ht k s

theorem lookup_after_insert_witness :
    cabe 100 (cstr "pista") ∧ cabe 50 (cstr "Mordomo") ∧
    encontrarSuspeito true
      (inserirNaHash true (hash_suspeitos true) (cstr "pista") (cstr "Mordomo"))
      (cstr "pista") = cstr "Mordomo" :=
  ⟨by decide, by decide,
    lookup_after_insert true (hash_suspeitos true) (cstr "pista") (cstr "Mordomo")
      (by decide) (by decide)⟩

theorem ultima_ocorrencia (pares : List (CStr × CStr)) (k : CStr)
    (h : k ∈ pares.map Prod.fst) :
    ∃ antes s depois, pares = antes ++ (k, s) :: depois ∧ ∀ par ∈ depois, par.1 ≠ k := by
  induction pares with
  | nil => simp at h
  | cons par pares ih =>
    by_cases hr : k ∈ pares.map Prod.fst
    · obtain ⟨antes, s, depois, heq, hd⟩ := ih hr
      exact ⟨par :: antes, s, depois, by rw [heq]; rfl, hd⟩
    · have hk : par.1 = k := by
        rcases List.mem_map.mp h with ⟨q, hq, hqk⟩
        rcases List.mem_cons.mp hq with rfl | hq
        · exact hqk
        · exact absurd (List.mem_map.mpr ⟨q, hq, hqk⟩) hr
      refine ⟨[], par.2, pares, ?_, ?_⟩
      · rw [← hk]
        rfl
      · intro q hq hqk
        exact hr (List.mem_map.mpr ⟨q, hq, hqk⟩)

/-- C4: after inserting a sequence of pairs into the empty registry, the lookup of a
key `k` that occurs in the sequence gives the suspect of the last pair with this key:
the sequence is `antes ++ (k, s) :: depois` with no pair of `depois` having key `k`,
and `encontrarSuspeito` on `k` returns `s`, whatever the other pairs are. -/
theorem lookup_returns_last_inserted (sc : Bool) (pares : List (CStr × CStr)) (k : CStr)
    (_hcabe : ∀ par ∈ pares, cabe 100 par.1 ∧ cabe 50 par.2)
    (hk : k ∈ pares.map Prod.fst) :
    ∃ antes s depois, pares = antes ++ (k, s) :: depois ∧ (∀ par ∈ depois, par.1 ≠ k) ∧
      encontrarSuspeito sc (inserirTodasNaHash sc tabelaVazia pares) k = s := by
  obtain ⟨antes, s, depois, heq, hultimo⟩ := ultima_ocorrencia pares k hk
  refine ⟨antes, s, depois, heq, hultimo, ?_⟩
  have hsplit : inserirTodasNaHash sc tabelaVazia (antes ++ (k, s) :: depois)
      = inserirTodasNaHash sc
          (inserirNaHash sc (inserirTodasNaHash sc tabelaVazia antes) k s) depois := by
    simp [inserirTodasNaHash, List.foldl_append]
  rw [heq, hsplit, encontrarSuspeito_inserirTodasNaHash_outras sc _ depois k hultimo]
  exact encontrarSuspeito_inserirNaHash_self sc _ k s

theorem lookup_returns_last_inserted_witness :
    (∀ par ∈ [(cstr "k", cstr "A"), (cstr "u", cstr "B"), (cstr "k", cstr "C"),
        (cstr "a", cstr "D")], cabe 100 par.1 ∧ cabe 50 par.2) ∧
    cstr "k" ∈ [(cstr "k", cstr "A"), (cstr "u", cstr "B"), (cstr "k", cstr "C"),
        (cstr "a", cstr "D")].map Prod.fst ∧
    ∃ antes s depois,
      [(cstr "k", cstr "A"), (cstr "u", cstr "B"), (cstr "k", cstr "C"),
        (cstr "a", cstr "D")] = antes ++ (cstr "k", s) :: depois ∧
      (∀ par ∈ depois, par.1 ≠ cstr "k") ∧
      encontrarSuspeito false (inserirTodasNaHash false tabelaVazia
        [(cstr "k", cstr "A"), (cstr "u", cstr "B"), (cstr "k", cstr "C"),
          (cstr "a", cstr "D")]) (cstr "k") = s :=
  ⟨by decide, by decide,
    lookup_returns_last_inserted false
      [(cstr "k", cstr "A"), (cstr "u", cstr "B"), (cstr "k", cstr "C"),
        (cstr "a", cstr "D")] (cstr "k") (by decide) (by decide)⟩

/-- C5, as stated, fails: the lookup of a key that was never inserted does not return
the string `UNKNOWN`. -/
theorem absent_key_lookup_differs_from_UNKNOWN :
    encontrarSuspeito false
      (inserirTodasNaHash false tabelaVazia [(cstr "a", cstr "Mordomo")]) (cstr "b")
      ≠ cstr "UNKNOWN" := by
  decide

/-- C5, amended: in a registry built from the empty one by any sequence of
`inserirNaHash` calls, the lookup of a clue text that is the key of none of them
returns the sentinel string `DESCONHECIDO`. -/
theorem lookup_of_absent_key (sc : Bool) (pares : List (CStr × CStr)) (k : CStr)
    (_hcabe : ∀ par ∈ pares, cabe 100 par.1 ∧ cabe 50 par.2)
    (hk : ∀ par ∈ pares, par.1 ≠ k) :
    encontrarSuspeito sc (inserirTodasNaHash sc tabelaVazia pares) k
      = cstr "DESCONHECIDO" := by
  rw [encontrarSuspeito_inserirTodasNaHash_outras sc _ pares k hk]
  rfl

theorem lookup_of_absent_key_witness :
    (∀ par ∈ [(cstr "a", cstr "Mordomo")], cabe 100 par.1 ∧ cabe 50 par.2) ∧
    (∀ par ∈ [(cstr "a", cstr "Mordomo")], par.1 ≠ cstr "k") ∧
    encontrarSuspeito true
      (inserirTodasNaHash true tabelaVazia [(cstr "a", cstr "Mordomo")]) (cstr "k")
      = cstr "DESCONHECIDO" :=
  ⟨by decide, by decide,
    lookup_of_absent_key true [(cstr "a", cstr "Mordomo")] (cstr "k")
      (by decide) (by decide)⟩

/-! ## The tally and the verdict -/

theorem contarPistasPorSuspeito_fst (sc : Bool) (t : PistaNode) (ht : HashTable)
    (acusado : CStr) (contador : Nat) :
    (contarPistasPorSuspeito sc t ht acusado contador).1
      = contador
        + (exibirPistas t).countP (fun p => decide (encontrarSuspeito sc ht p = acusado)) := by
  induction t generalizing contador with
  | null => simp [contarPistasPorSuspeito, exibirPistas]
  | mk q l r ihl ihr =>
    simp only [contarPistasPorSuspeito, exibirPistas, List.countP_append, List.countP_cons]
    rw [ihr]
    by_cases h1 : encontrarSuspeito sc ht q = acusado
    · have h0 : strcmp (encontrarSuspeito sc ht q) acusado = 0 := strcmp_eq_zero.mpr h1
      rw [if_pos h0, ihl]
      simp only [decide_eq_true_eq, if_pos h1]
      omega
    · have h0 : ¬ strcmp (encontrarSuspeito sc ht q) acusado = 0 :=
        fun h => h1 (strcmp_eq_zero.mp h)
      rw [if_neg h0]
      simp only [decide_eq_true_eq, if_neg h1]
      split_ifs <;> simp only [ihl] <;> omega

theorem contarPistasPorSuspeito_snd (sc : Bool) (t : PistaNode) (ht : HashTable)
    (acusado : CStr) (contador : Nat) :
    ∀ m ∈ (contarPistasPorSuspeito sc t ht acusado contador).2,
      ∀ x, m ≠ .sucesso x ∧ m ≠ .fracasso x := by
  induction t generalizing contador with
  | null => simp [contarPistasPorSuspeito]
  | mk q l r ihl ihr =>
    intro m hm x
    simp only [contarPistasPorSuspeito, List.mem_append] at hm
    rcases hm with (hm | hm) | hm
    · exact ihl _ m hm x
    · split_ifs at hm <;> simp at hm <;> subst hm <;> simp
    · exact ihr _ m hm x

/-- C7: for every dossier, registry and accused name, `contarPistasPorSuspeito`
started with the counter at 0 leaves in the counter the number of texts of the
in-order traversal (one per node) whose `encontrarSuspeito` result is the accused
name byte for byte. -/
theorem tally_counts_matching_clues (sc : Bool) (t : PistaNode) (ht : HashTable)
    (acusado : CStr) :
    (contarPistasPorSuspeito sc t ht acusado 0).1
      = (exibirPistas t).countP (fun p => decide (encontrarSuspeito sc ht p = acusado)) := by
  rw [contarPistasPorSuspeito_fst]
  omega

theorem verificarSuspeitoFinal_veredito (sc : Bool) (t : PistaNode) (ht : HashTable)
    (acusado : CStr) (ht0 : t ≠ .null) :
    (Msg.sucesso acusado ∈ verificarSuspeitoFinal sc t ht acusado
      ↔ 2 ≤ (contarPistasPorSuspeito sc t ht acusado 0).1) ∧
    (Msg.fracasso acusado ∈ verificarSuspeitoFinal sc t ht acusado
      ↔ (contarPistasPorSuspeito sc t ht acusado 0).1 < 2) := by
  cases t with
  | null => exact absurd rfl ht0
  | mk q l r =>
    have hs := contarPistasPorSuspeito_snd sc (.mk q l r) ht acusado 0
    have h1 : Msg.sucesso acusado ∉ (contarPistasPorSuspeito sc (.mk q l r) ht acusado 0).2 :=
      fun hm => (hs _ hm acusado).1 rfl
    have h2 : Msg.fracasso acusado ∉ (contarPistasPorSuspeito sc (.mk q l r) ht acusado 0).2 :=
      fun hm => (hs _ hm acusado).2 rfl
    simp only [verificarSuspeitoFinal]
    constructor
    · split_ifs with h <;> simp [h1] <;> omega
    · split_ifs with h <;> simp [h2] <;> omega

/-- C8: for a non-empty dossier, `verificarSuspeitoFinal` prints the SUCCESS line
exactly when the tally of `contarPistasPorSuspeito` (started at 0) is at least 2, and
the FAILURE line exactly when it is below 2. -/
theorem verdict_success_iff_tally_ge_two (sc : Bool) (t : PistaNode) (ht : HashTable)
    (acusado : CStr) (ht0 : t ≠ .null) :
    (Msg.sucesso acusado ∈ verificarSuspeitoFinal sc t ht acusado
      ↔ 2 ≤ (contarPistasPorSuspeito sc t ht acusado 0).1) ∧
    (Msg.fracasso acusado ∈ verificarSuspeitoFinal sc t ht acusado
      ↔ (contarPistasPorSuspeito sc t ht acusado 0).1 < 2) :=
  verificarSuspeitoFinal_veredito sc t ht acusado ht0

theorem verdict_success_iff_tally_ge_two_witness :
    criarPistaNode (cstr "Havia terra recém-cavada sob o vaso de palmeira.") ≠ .null ∧
    (Msg.fracasso (cstr "Jardineiro") ∈ verificarSuspeitoFinal true
        (criarPistaNode (cstr "Havia terra recém-cavada sob o vaso de palmeira."))
        (hash_suspeitos true) (cstr "Jardineiro")
      ↔ (contarPistasPorSuspeito true
          (criarPistaNode (cstr "Havia terra recém-cavada sob o vaso de palmeira."))
          (hash_suspeitos true) (cstr "Jardineiro") 0).1 < 2) :=
  ⟨by decide,
    (verdict_success_iff_tally_ge_two true
      (criarPistaNode (cstr "Havia terra recém-cavada sob o vaso de palmeira."))
      (hash_suspeitos true) (cstr "Jardineiro") (by decide)).2⟩

/-! ## The visit step of the exploration loop -/

theorem em_limpar (m : Sala) (p : List Lado) (nome c : CStr) (esq dir : Sala)
    (h : m.em p = .mk nome c esq dir) : (m.limpar p).em p = .mk nome [] esq dir := by
  induction p generalizing m with
  | nil =>
    cases m with
    | null => simp [Sala.em] at h
    | mk n q l r =>
      simp only [Sala.em, Sala.mk.injEq] at h
      obtain ⟨rfl, -, rfl, rfl⟩ := h
      simp [Sala.limpar, Sala.em]
  | cons lado p ih =>
    cases m with
    | null => simp [Sala.em] at h
    | mk n q l r =>
      cases lado with
      | esquerda => exact ih l h
      | direita => exact ih r h

theorem visitar_com_pista (e : Exploracao) (nome c : CStr) (esq dir : Sala)
    (h : e.mapa.em e.atual = .mk nome c esq dir) (hc : c ≠ []) :
    visitar e = some
      { mapa := e.mapa.limpar e.atual
        atual := e.atual
        pistas := (inserirPista e.pistas c).1
        saida := e.saida ++ [.voceEstaEm nome] ++ [.alerta] ++ (inserirPista e.pistas c).2
          ++ (if esq.existe || dir.existe then [] else [.fimDeLinha])
          ++ [.caminhos esq.existe dir.existe]
        encerrada := e.encerrada } := by
  have h0 : strcmp c [] ≠ 0 := fun h0 => hc (strcmp_eq_zero.mp h0)
  simp [visitar, h, h0]

theorem visitar_sem_pista (e : Exploracao) (nome : CStr) (esq dir : Sala)
    (h : e.mapa.em e.atual = .mk nome [] esq dir) :
    ∃ e1, visitar e = some e1 ∧ e1.mapa = e.mapa ∧ e1.atual = e.atual ∧
      e1.pistas = e.pistas ∧ e1.encerrada = e.encerrada ∧
      e1.saida.count .alerta = e.saida.count .alerta := by
  refine ⟨_, by simp only [visitar, h]; rfl, ?_⟩
  simp only [strcmp, ne_eq, not_true_eq_false, if_false, List.count_append, true_and]
  split_ifs <;> simp

theorem escolher_bloqueada (e : Exploracao) (nome c : CStr) (esq dir : Sala) (ch : Nat)
    (h : e.mapa.em e.atual = .mk nome c esq dir) (hb : escolhaBloqueada esq dir ch) :
    escolher e ch = { e with saida := e.saida ++ [.escolhaInvalida] } := by
  obtain ⟨h1, h2, h3⟩ := hb
  simp only [escolher, h, if_neg h1, if_neg h2, if_neg h3]

theorem laco_sem_pista (e : Exploracao) (nome : CStr) (esq dir : Sala)
    (h : e.mapa.em e.atual = .mk nome [] esq dir) (hnao : e.encerrada = false)
    (escolhas : List Nat) (hb : ∀ ch ∈ escolhas, escolhaBloqueada esq dir ch) :
    ∃ ef, laco e escolhas = some ef ∧ ef.mapa = e.mapa ∧ ef.pistas = e.pistas ∧
      ef.atual = e.atual ∧ ef.saida.count .alerta = e.saida.count .alerta := by
  induction escolhas generalizing e with
  | nil =>
    obtain ⟨e1, hv, hm, ha, hp, -, hs⟩ := visitar_sem_pista e nome esq dir h
    exact ⟨e1, by simpa only [laco] using hv, hm, hp, ha, hs⟩
  | cons ch resto ih =>
    have hch := hb ch (List.mem_cons_self _ _)
    have hresto : ∀ x ∈ resto, escolhaBloqueada esq dir x :=
      fun x hx => hb x (List.mem_cons_of_mem _ hx)
    obtain ⟨e1, hv, hm, ha, hp, he, hs⟩ := visitar_sem_pista e nome esq dir h
    have h1 : e1.mapa.em e1.atual = .mk nome [] esq dir := by rw [hm, ha]; exact h
    have hesc := escolher_bloqueada e1 nome [] esq dir ch h1 hch
    obtain ⟨ef, hl, hm2, hp2, ha2, hs2⟩ := ih (escolher e1 ch)
      (by rw [hesc]; exact h1) (by rw [hesc]; exact he.trans hnao) hresto
    refine ⟨ef, ?_, ?_, ?_, ?_, ?_⟩
    · have hne : (escolher e1 ch).encerrada = false := by rw [hesc]; exact he.trans hnao
      simp only [laco, hv, hne]
      exact hl
    · rw [hm2, hesc]; exact hm
    · rw [hp2, hesc]; exact hp
    · rw [ha2, hesc]; exact ha
    · rw [hs2, hesc, ← hs]
      simp [List.count_append]

theorem inserirPista_saida (t : PistaNode) (p : CStr) :
    ∀ m ∈ (inserirPista t p).2, m = .pistaEncontrada p := by
  induction t with
  | null => simp [inserirPista]
  | mk q l r ihl ihr =>
    simp only [inserirPista]
    split_ifs
    · exact ihl
    · exact ihr
    · simp

theorem visitar_com_pista_efeito (e : Exploracao) (nome c : CStr) (esq dir : Sala)
    (h : e.mapa.em e.atual = .mk nome c esq dir) (hc : c ≠ []) :
    ∃ e1, visitar e = some e1 ∧ e1.mapa = e.mapa.limpar e.atual ∧ e1.atual = e.atual ∧
      e1.pistas = (inserirPista e.pistas c).1 ∧ e1.encerrada = e.encerrada ∧
      e1.saida.count .alerta = e.saida.count .alerta + 1 := by
  have hcount : (inserirPista e.pistas c).2.count .alerta = 0 := by
    rw [List.count_eq_zero]
    intro hmem
    have := inserirPista_saida e.pistas c _ hmem
    simp at this
  refine ⟨_, visitar_com_pista e nome c esq dir h hc, rfl, rfl, rfl, rfl, ?_⟩
  simp only [List.count_append, hcount]
  split_ifs <;> simp

/-- C6: at a room whose clue is a non-empty text `c`, the first visit step of the loop
of `explorarSalas` passes `c` to `inserirPista`, keeps the returned dossier and empties
the room's clue; the loop run on any number of invalid or blocked choices from there
(one more visit step of the same room after each choice) ends with the map and the
dossier exactly as the first visit left them, having collected once in all. -/
theorem clue_collected_on_first_visit_only (e : Exploracao) (nome c : CStr)
    (esq dir : Sala) (escolhas : List Nat)
    (hsala : e.mapa.em e.atual = .mk nome c esq dir) (hc : c ≠ []) (_hcabe : cabe 100 c)
    (hnao : e.encerrada = false)
    (hb : ∀ ch ∈ escolhas, escolhaBloqueada esq dir ch) :
    ∃ e1, visitar e = some e1 ∧
      e1.pistas = (inserirPista e.pistas c).1 ∧
      e1.mapa = e.mapa.limpar e.atual ∧
      e1.mapa.em e.atual = .mk nome [] esq dir ∧
      e1.saida.count .alerta = e.saida.count .alerta + 1 ∧
      ∃ ef, laco e escolhas = some ef ∧ ef.atual = e.atual ∧
        ef.mapa = e1.mapa ∧ ef.pistas = e1.pistas ∧
        ef.saida.count .alerta = e1.saida.count .alerta := by
  obtain ⟨e1, hv, hm, ha, hp, he, hs⟩ := visitar_com_pista_efeito e nome c esq dir hsala hc
  have h1 : e1.mapa.em e1.atual = .mk nome [] esq dir := by
    rw [hm, ha]
    exact em_limpar e.mapa e.atual nome c esq dir hsala
  refine ⟨e1, hv, hp, hm, by rw [← ha]; exact h1, hs, ?_⟩
  cases escolhas with
  | nil => exact ⟨e1, by simpa only [laco] using hv, ha, rfl, rfl, rfl⟩
  | cons ch resto =>
    have hch := hb ch (List.mem_cons_self _ _)
    have hresto : ∀ x ∈ resto, escolhaBloqueada esq dir x :=
      fun x hx => hb x (List.mem_cons_of_mem _ hx)
    have hesc := escolher_bloqueada e1 nome [] esq dir ch h1 hch
    have hne : (escolher e1 ch).encerrada = false := by rw [hesc]; exact he.trans hnao
    obtain ⟨ef, hl, hm2, hp2, ha2, hs2⟩ := laco_sem_pista (escolher e1 ch) nome esq dir
      (by rw [hesc]; exact h1) hne resto hresto
    refine ⟨ef, ?_, ?_, ?_, ?_, ?_⟩
    · simp only [laco, hv, hne]
      exact hl
    · rw [ha2, hesc]; exact ha
    · rw [hm2, hesc]
    · rw [hp2, hesc]
    · rw [hs2, hesc]
      simp [List.count_append]

theorem clue_collected_on_first_visit_only_witness :
    ∃ e1, visitar ⟨criarSala (cstr "Hall") (cstr "pista"), [], .null, [], false⟩ = some e1 ∧
      e1.pistas = (inserirPista .null (cstr "pista")).1 ∧
      e1.mapa = (criarSala (cstr "Hall") (cstr "pista")).limpar [] ∧
      e1.mapa.em [] = .mk (cstr "Hall") [] .null .null ∧
      e1.saida.count .alerta = ([] : List Msg).count .alerta + 1 ∧
      ∃ ef, laco ⟨criarSala (cstr "Hall") (cstr "pista"), [], .null, [], false⟩
          [101, 100, 120] = some ef ∧ ef.atual = [] ∧
        ef.mapa = e1.mapa ∧ ef.pistas = e1.pistas ∧
        ef.saida.count .alerta = e1.saida.count .alerta :=
  clue_collected_on_first_visit_only
    ⟨criarSala (cstr "Hall") (cstr "pista"), [], .null, [], false⟩
    (cstr "Hall") (cstr "pista") .null .null [101, 100, 120]
    (by decide) (by decide) (by decide) rfl (by decide)

/-! ## The data of `main` -/

theorem exibirPistas_inserirTodas_perm (ordem pistas : List CStr) (h : ordem.Perm pistas)
    (hnd : pistas.Nodup) : (exibirPistas (inserirTodas .null ordem)).Perm pistas := by
  have hord : Ordenada (inserirTodas .null ordem) := ordenada_inserirTodas .null ordem trivial
  have hnd1 := nodup_of_pairwise_strcmp _ (pairwise_exibirPistas _ hord)
  rw [List.perm_ext_iff_of_nodup hnd1 hnd]
  intro x
  rw [mem_exibirPistas_inserirTodas, ← h.mem_iff]
  simp [exibirPistas]

theorem tally_inserirTodas_perm (sc : Bool) (ht : HashTable) (acusado : CStr)
    (ordem pistas : List CStr) (h : ordem.Perm pistas) (hnd : pistas.Nodup) :
    (contarPistasPorSuspeito sc (inserirTodas .null ordem) ht acusado 0).1
      = pistas.countP (fun p => decide (encontrarSuspeito sc ht p = acusado)) := by
  rw [contarPistasPorSuspeito_fst, (exibirPistas_inserirTodas_perm ordem pistas h hnd).countP_eq]
  omega

theorem nodup_pistas_mansao : mansao.pistas.Nodup := by decide!

theorem tallies_mansao (sc : Bool) :
    mansao.pistas.countP
        (fun p => decide (encontrarSuspeito sc (hash_suspeitos sc) p = cstr "Mordomo")) = 2 ∧
    mansao.pistas.countP
        (fun p => decide (encontrarSuspeito sc (hash_suspeitos sc) p = cstr "Cozinheira")) = 2 ∧
    mansao.pistas.countP
        (fun p => decide (encontrarSuspeito sc (hash_suspeitos sc) p = cstr "Jardineiro")) = 3 := by
  cases sc <;> decide!

theorem inserirTodas_ne_null (ordem pistas : List CStr) (h : ordem.Perm pistas)
    (hnd : pistas.Nodup) (hne : pistas ≠ []) : inserirTodas .null ordem ≠ .null := by
  intro h0
  have hp := exibirPistas_inserirTodas_perm ordem pistas h hnd
  rw [h0] at hp
  exact hne (List.Perm.nil_eq hp).symm

/-- C9: with the registry filled as in `main` and a dossier built by inserting all
the non-empty clues of the mansion of `main`, in any order, the tally is 2 for
`Mordomo`, 2 for `Cozinheira` and 3 for `Jardineiro`, and each of these three
accusations makes `verificarSuspeitoFinal` print the SUCCESS line. -/
theorem tallies_of_the_three_suspects (sc : Bool) (ordem : List CStr)
    (h : ordem.Perm mansao.pistas) :
    ((contarPistasPorSuspeito sc (inserirTodas .null ordem) (hash_suspeitos sc)
        (cstr "Mordomo") 0).1 = 2 ∧
     (contarPistasPorSuspeito sc (inserirTodas .null ordem) (hash_suspeitos sc)
        (cstr "Cozinheira") 0).1 = 2 ∧
     (contarPistasPorSuspeito sc (inserirTodas .null ordem) (hash_suspeitos sc)
        (cstr "Jardineiro") 0).1 = 3) ∧
    Msg.sucesso (cstr "Mordomo") ∈ verificarSuspeitoFinal sc (inserirTodas .null ordem)
      (hash_suspeitos sc) (cstr "Mordomo") ∧
    Msg.sucesso (cstr "Cozinheira") ∈ verificarSuspeitoFinal sc (inserirTodas .null ordem)
      (hash_suspeitos sc) (cstr "Cozinheira") ∧
    Msg.sucesso (cstr "Jardineiro") ∈ verificarSuspeitoFinal sc (inserirTodas .null ordem)
      (hash_suspeitos sc) (cstr "Jardineiro") := by
  have hne : inserirTodas .null ordem ≠ .null :=
    inserirTodas_ne_null ordem mansao.pistas h nodup_pistas_mansao (by decide)
  obtain ⟨hm, hc, hj⟩ := tallies_mansao sc
  have tm := tally_inserirTodas_perm sc (hash_suspeitos sc) (cstr "Mordomo") ordem
    mansao.pistas h nodup_pistas_mansao
  have tc := tally_inserirTodas_perm sc (hash_suspeitos sc) (cstr "Cozinheira") ordem
    mansao.pistas h nodup_pistas_mansao
  have tj := tally_inserirTodas_perm sc (hash_suspeitos sc) (cstr "Jardineiro") ordem
    mansao.pistas h nodup_pistas_mansao
  rw [hm] at tm
  rw [hc] at tc
  rw [hj] at tj
  refine ⟨⟨tm, tc, tj⟩, ?_, ?_, ?_⟩
  · exact (verificarSuspeitoFinal_veredito sc _ _ _ hne).1.mpr (by omega)
  · exact (verificarSuspeitoFinal_veredito sc _ _ _ hne).1.mpr (by omega)
  · exact (verificarSuspeitoFinal_veredito sc _ _ _ hne).1.mpr (by omega)

theorem tallies_of_the_three_suspects_witness :
    mansao.pistas.reverse.Perm mansao.pistas ∧
    (contarPistasPorSuspeito false (inserirTodas .null mansao.pistas.reverse)
      (hash_suspeitos false) (cstr "Jardineiro") 0).1 = 3 :=
  ⟨List.reverse_perm _,
    (tallies_of_the_three_suspects false mansao.pistas.reverse (List.reverse_perm _)).1.2.2⟩

theorem suspeitos_das_pistas_da_mansao (sc : Bool) :
    ∀ p ∈ mansao.pistas, encontrarSuspeito sc (hash_suspeitos sc) p ∈
      [cstr "Mordomo", cstr "Cozinheira", cstr "Jardineiro", cstr "DESCONHECIDO"] := by
  cases sc <;> decide!

/-- With the registry and all the clues of `main`, an accused name that is none of the
three suspects and is not the string `DESCONHECIDO` has a tally of 0 and gets the
FAILURE line. -/
theorem unlisted_name_other_than_sentinel (sc : Bool) (ordem : List CStr) (acusado : CStr)
    (h : ordem.Perm mansao.pistas)
    (hm : acusado ≠ cstr "Mordomo") (hc : acusado ≠ cstr "Cozinheira")
    (hj : acusado ≠ cstr "Jardineiro") (hd : acusado ≠ cstr "DESCONHECIDO") :
    (contarPistasPorSuspeito sc (inserirTodas .null ordem) (hash_suspeitos sc)
        acusado 0).1 = 0 ∧
    Msg.fracasso acusado ∈ verificarSuspeitoFinal sc (inserirTodas .null ordem)
      (hash_suspeitos sc) acusado := by
  have hne : inserirTodas .null ordem ≠ .null :=
    inserirTodas_ne_null ordem mansao.pistas h nodup_pistas_mansao (by decide)
  have t0 : (contarPistasPorSuspeito sc (inserirTodas .null ordem) (hash_suspeitos sc)
      acusado 0).1 = 0 := by
    rw [tally_inserirTodas_perm sc (hash_suspeitos sc) acusado ordem mansao.pistas h
      nodup_pistas_mansao, List.countP_eq_zero]
    intro p hp
    have hs := suspeitos_das_pistas_da_mansao sc p hp
    simp only [List.mem_cons, List.mem_singleton, List.not_mem_nil, or_false] at hs
    rw [decide_eq_true_eq]
    rintro rfl
    rcases hs with hs | hs | hs | hs
    · exact hm hs
    · exact hc hs
    · exact hj hs
    · exact hd hs
  exact ⟨t0, (verificarSuspeitoFinal_veredito sc _ _ _ hne).2.mpr (by omega)⟩

theorem unlisted_name_other_than_sentinel_witness :
    (contarPistasPorSuspeito true (inserirTodas .null mansao.pistas) (hash_suspeitos true)
        (cstr "Motorista") 0).1 = 0 ∧
    Msg.fracasso (cstr "Motorista") ∈ verificarSuspeitoFinal true
      (inserirTodas .null mansao.pistas) (hash_suspeitos true) (cstr "Motorista") :=
  unlisted_name_other_than_sentinel true mansao.pistas (cstr "Motorista") (List.Perm.refl _)
    (by decide) (by decide) (by decide) (by decide)

/-- C10 at the accused name `DESCONHECIDO`, which is not one of the suspects listed
in the registry: with the registry and all the clues of `main`, the tally is 1, not 0
(the clue of the Porão has no registry entry, and the string returned for it by
`encontrarSuspeito` equals the accused name). -/
theorem tally_of_accused_DESCONHECIDO :
    (contarPistasPorSuspeito true (inserirTodas .null mansao.pistas) (hash_suspeitos true)
        (cstr "DESCONHECIDO") 0).1 = 1 ∧
    (contarPistasPorSuspeito false (inserirTodas .null mansao.pistas) (hash_suspeitos false)
        (cstr "DESCONHECIDO") 0).1 = 1 ∧
    cstr "DESCONHECIDO" ∉ [cstr "Mordomo", cstr "Cozinheira", cstr "Jardineiro"] := by
  decide!

/-! ## Paths in the map -/

theorem strcmp_nil_ne_zero (c : CStr) : strcmp c [] ≠ 0 ↔ c ≠ [] := by
  rw [ne_eq, strcmp_eq_zero]

theorem naoVazia_nil : naoVazia [] = [] := rfl

theorem naoVazia_of_ne (c : CStr) (h : c ≠ []) : naoVazia c = [c] := by
  simp [naoVazia, (strcmp_nil_ne_zero c).mpr h]

theorem mem_naoVazia (c x : CStr) : x ∈ naoVazia c ↔ x ≠ [] ∧ c = x := by
  by_cases h : c = []
  · subst h
    simp only [naoVazia_nil, List.not_mem_nil, false_iff, not_and]
    intro hx hc
    exact hx hc.symm
  · rw [naoVazia_of_ne c h, List.mem_singleton]
    constructor
    · rintro rfl
      exact ⟨h, rfl⟩
    · rintro ⟨-, rfl⟩
      rfl

theorem em_null (p : List Lado) : Sala.null.em p = .null := by
  cases p <;> rfl

theorem em_snoc_esquerda (m : Sala) (p : List Lado) (nome c : CStr) (esq dir : Sala)
    (h : m.em p = .mk nome c esq dir) : m.em (p ++ [.esquerda]) = esq := by
  induction p generalizing m with
  | nil =>
    simp only [Sala.em] at h
    subst h
    simp [Sala.em]
  | cons l p ih =>
    cases m with
    | null => simp [Sala.em] at h
    | mk n q a b =>
      cases l with
      | esquerda => exact ih a h
      | direita => exact ih b h

theorem em_snoc_direita (m : Sala) (p : List Lado) (nome c : CStr) (esq dir : Sala)
    (h : m.em p = .mk nome c esq dir) : m.em (p ++ [.direita]) = dir := by
  induction p generalizing m with
  | nil =>
    simp only [Sala.em] at h
    subst h
    simp [Sala.em]
  | cons l p ih =>
    cases m with
    | null => simp [Sala.em] at h
    | mk n q a b =>
      cases l with
      | esquerda => exact ih a h
      | direita => exact ih b h

theorem limpar_nil_eq_limparAte (m : Sala) : m.limpar [] = m.limparAte [] := by
  cases m <;> rfl

theorem limparAte_snoc (m : Sala) (p : List Lado) (l : Lado) :
    (m.limparAte p).limpar (p ++ [l]) = m.limparAte (p ++ [l]) := by
  induction p generalizing m with
  | nil =>
    cases m with
    | null => rfl
    | mk n q a b =>
      cases l <;> simp [Sala.limparAte, Sala.limpar, limpar_nil_eq_limparAte]
  | cons l2 p ih =>
    cases m with
    | null => rfl
    | mk n q a b =>
      cases l2 <;> simp [Sala.limparAte, Sala.limpar, ih]

theorem em_limparAte_snoc (m : Sala) (p : List Lado) (l : Lado) :
    (m.limparAte p).em (p ++ [l]) = m.em (p ++ [l]) := by
  induction p generalizing m with
  | nil =>
    cases m with
    | null => rfl
    | mk n q a b => cases l <;> rfl
  | cons l2 p ih =>
    cases m with
    | null => rfl
    | mk n q a b =>
      cases l2 <;> simp [Sala.limparAte, Sala.em, ih]

theorem em_limparAte_self (m : Sala) (p : List Lado) (nome c : CStr) (esq dir : Sala)
    (h : m.em p = .mk nome c esq dir) : (m.limparAte p).em p = .mk nome [] esq dir := by
  induction p generalizing m with
  | nil =>
    simp only [Sala.em] at h
    subst h
    rfl
  | cons l p ih =>
    cases m with
    | null => simp [Sala.em] at h
    | mk n q a b =>
      cases l with
      | esquerda => exact ih a h
      | direita => exact ih b h

theorem limpar_sem_pista (m : Sala) (p : List Lado) (nome : CStr) (esq dir : Sala)
    (h : m.em p = .mk nome [] esq dir) : m.limpar p = m := by
  induction p generalizing m with
  | nil =>
    simp only [Sala.em] at h
    subst h
    rfl
  | cons l p ih =>
    cases m with
    | null => rfl
    | mk n q a b =>
      cases l with
      | esquerda => simp only [Sala.limpar, ih a h]
      | direita => simp only [Sala.limpar, ih b h]

theorem pistasAte_snoc (m : Sala) (p : List Lado) (l : Lado) :
    m.pistasAte (p ++ [l]) = m.pistasAte p ++ naoVazia (m.em (p ++ [l])).pista_estatica := by
  induction p generalizing m with
  | nil =>
    cases m with
    | null => rfl
    | mk n q a b =>
      cases l with
      | esquerda => cases a <;> simp [Sala.pistasAte, Sala.em, Sala.pista_estatica, naoVazia_nil]
      | direita => cases b <;> simp [Sala.pistasAte, Sala.em, Sala.pista_estatica, naoVazia_nil]
  | cons l2 p ih =>
    cases m with
    | null => simp [Sala.pistasAte, Sala.em, Sala.pista_estatica, naoVazia_nil]
    | mk n q a b =>
      cases l2 <;> simp [Sala.pistasAte, Sala.em, ih]

theorem inserirTodas_concat (d : PistaNode) (a b : List CStr) :
    inserirTodas d (a ++ b) = inserirTodas (inserirTodas d a) b := by
  simp [inserirTodas, List.foldl_append]

theorem inserirTodas_naoVazia (d : PistaNode) (c : CStr) :
    inserirTodas d (naoVazia c) = if strcmp c [] ≠ 0 then (inserirPista d c).1 else d := by
  unfold naoVazia
  split_ifs <;> rfl

/-! ## The exploration loop -/

theorem existe_iff (s : Sala) : s.existe = true ↔ ∃ n c a b, s = .mk n c a b := by
  cases s with
  | null => simp [Sala.existe]
  | mk n c a b => simp [Sala.existe]

theorem visitar_geral (e : Exploracao) (nome c : CStr) (esq dir : Sala)
    (h : e.mapa.em e.atual = .mk nome c esq dir) :
    ∃ e1, visitar e = some e1 ∧ e1.mapa = e.mapa.limpar e.atual ∧ e1.atual = e.atual ∧
      e1.pistas = inserirTodas e.pistas (naoVazia c) ∧ e1.encerrada = e.encerrada ∧
      ((∀ m ∈ e.saida, m.daExploracao = true) → ∀ m ∈ e1.saida, m.daExploracao = true) := by
  by_cases hc : c = []
  · subst hc
    refine ⟨{ e with
        saida := e.saida ++ [.voceEstaEm nome]
          ++ (if esq.existe || dir.existe then [] else [.fimDeLinha])
          ++ [.caminhos esq.existe dir.existe] }, ?_, ?_, rfl, rfl, rfl, ?_⟩
    · simp [visitar, h, strcmp]
    · exact (limpar_sem_pista e.mapa e.atual nome esq dir h).symm
    · intro hs m hm
      simp only [List.mem_append, List.mem_singleton] at hm
      rcases hm with ((hm | rfl) | hm) | rfl
      · exact hs m hm
      · rfl
      · split_ifs at hm
        · simp at hm
        · rw [List.mem_singleton.mp hm]; rfl
      · rfl
  · refine ⟨_, visitar_com_pista e nome c esq dir h hc, rfl, rfl, ?_, rfl, ?_⟩
    · rw [naoVazia_of_ne c hc]; rfl
    · intro hs m hm
      simp only [List.mem_append, List.mem_singleton] at hm
      rcases hm with (((((hm | rfl) | rfl) | hm) | hm) | rfl)
      · exact hs m hm
      · rfl
      · rfl
      · rw [inserirPista_saida e.pistas c m hm]; rfl
      · split_ifs at hm
        · simp at hm
        · rw [List.mem_singleton.mp hm]; rfl
      · rfl

theorem escolher_casos (e : Exploracao) (nome c : CStr) (esq dir : Sala)
    (h : e.mapa.em e.atual = .mk nome c esq dir) (ch : Nat) :
    escolher e ch = { e with saida := e.saida ++ [.encerrar], encerrada := true } ∨
    (esq.existe = true ∧ escolher e ch = { e with atual := e.atual ++ [.esquerda] }) ∨
    (dir.existe = true ∧ escolher e ch = { e with atual := e.atual ++ [.direita] }) ∨
    escolher e ch = { e with saida := e.saida ++ [.escolhaInvalida] } := by
  simp only [escolher, h]
  split_ifs with h1 h2 h3
  · exact Or.inl rfl
  · exact Or.inr (Or.inl ⟨h2.2, rfl⟩)
  · exact Or.inr (Or.inr (Or.inl ⟨h3.2, rfl⟩))
  · exact Or.inr (Or.inr (Or.inr rfl))

theorem explorado_ficar (m0 : Sala) (d0 : PistaNode) (e1 e2 : Exploracao)
    (hx : Explorado m0 d0 e1) (hm : e2.mapa = e1.mapa) (ha : e2.atual = e1.atual)
    (hp : e2.pistas = e1.pistas) :
    ∃ e3, visitar e2 = some e3 ∧ Explorado m0 d0 e3 ∧ e3.encerrada = e2.encerrada ∧
      e3.atual = e2.atual ∧
      ((∀ m ∈ e2.saida, m.daExploracao = true) → ∀ m ∈ e3.saida, m.daExploracao = true) := by
  obtain ⟨hex, hmapa, hpistas⟩ := hx
  obtain ⟨n, c, a, b, hroom⟩ := (existe_iff _).mp hex
  have hcur : e2.mapa.em e2.atual = .mk n [] a b := by
    rw [hm, ha, hmapa]
    exact em_limparAte_self m0 e1.atual n c a b hroom
  obtain ⟨e3, hv, h3m, h3a, h3p, h3e, h3s⟩ := visitar_geral e2 n [] a b hcur
  refine ⟨e3, hv, ⟨?_, ?_, ?_⟩, h3e, h3a, h3s⟩
  · rw [h3a, ha]; exact hex
  · rw [h3m, limpar_sem_pista e2.mapa e2.atual n a b hcur, hm, hmapa, h3a, ha]
  · rw [h3p, naoVazia_nil, h3a, ha, hp, hpistas]; rfl

theorem explorado_descer (m0 : Sala) (d0 : PistaNode) (e1 e2 : Exploracao) (l : Lado)
    (hx : Explorado m0 d0 e1) (hm : e2.mapa = e1.mapa) (ha : e2.atual = e1.atual ++ [l])
    (hp : e2.pistas = e1.pistas) (hl : (m0.em (e1.atual ++ [l])).existe = true) :
    ∃ e3, visitar e2 = some e3 ∧ Explorado m0 d0 e3 ∧ e3.encerrada = e2.encerrada ∧
      e3.atual = e2.atual ∧
      ((∀ m ∈ e2.saida, m.daExploracao = true) → ∀ m ∈ e3.saida, m.daExploracao = true) := by
  obtain ⟨-, hmapa, hpistas⟩ := hx
  obtain ⟨n, c, a, b, hroom⟩ := (existe_iff _).mp hl
  have hcur : e2.mapa.em e2.atual = .mk n c a b := by
    rw [hm, ha, hmapa, em_limparAte_snoc]
    exact hroom
  obtain ⟨e3, hv, h3m, h3a, h3p, h3e, h3s⟩ := visitar_geral e2 n c a b hcur
  refine ⟨e3, hv, ⟨?_, ?_, ?_⟩, h3e, h3a, h3s⟩
  · rw [h3a, ha]; exact hl
  · rw [h3m, hm, ha, hmapa, limparAte_snoc, h3a, ha]
  · rw [h3p, h3a, ha, hp, hpistas, pistasAte_snoc, inserirTodas_concat, hroom]
    rfl

theorem mem_singleton_iff_entre (a q : List Lado) :
    q ∈ [a] ↔ a <+: q ∧ q <+: a := by
  rw [List.mem_singleton]
  constructor
  · rintro rfl
    exact ⟨List.prefix_refl _, List.prefix_refl _⟩
  · rintro ⟨h1, h2⟩
    exact h2.eq_of_length (Nat.le_antisymm h2.length_le h1.length_le)

theorem mem_cons_iff_entre_ficar (a q f : List Lado) (ps : List (List Lado))
    (haf : a <+: f) (hps : q ∈ ps ↔ a <+: q ∧ q <+: f) :
    q ∈ a :: ps ↔ a <+: q ∧ q <+: f := by
  rw [List.mem_cons, hps]
  constructor
  · rintro (rfl | h)
    · exact ⟨List.prefix_refl _, haf⟩
    · exact h
  · exact fun h => Or.inr h

theorem mem_cons_iff_entre_descer (a q f : List Lado) (l : Lado) (ps : List (List Lado))
    (haf : a ++ [l] <+: f) (hps : q ∈ ps ↔ a ++ [l] <+: q ∧ q <+: f) :
    q ∈ a :: ps ↔ a <+: q ∧ q <+: f := by
  have ha : a <+: a ++ [l] := List.prefix_append a [l]
  rw [List.mem_cons, hps]
  constructor
  · rintro (rfl | ⟨h1, h2⟩)
    · exact ⟨List.prefix_refl _, ha.trans haf⟩
    · exact ⟨ha.trans h1, h2⟩
  · rintro ⟨h1, h2⟩
    by_cases hq : q = a
    · exact Or.inl hq
    · refine Or.inr ⟨?_, h2⟩
      refine List.prefix_of_prefix_length_le haf h2 ?_
      have hlt : a.length < q.length := by
        rcases Nat.lt_or_ge a.length q.length with h | h
        · exact h
        · exact absurd (h1.eq_of_length (Nat.le_antisymm h1.length_le h)).symm hq
      simp only [List.length_append, List.length_singleton]
      omega

theorem laco_explorado (m0 : Sala) (d0 : PistaNode) (l : List Nat) :
    ∀ e e1 : Exploracao, visitar e = some e1 → Explorado m0 d0 e1 →
      e1.encerrada = false → e1.atual = e.atual →
      (∀ m ∈ e1.saida, m.daExploracao = true) →
      ∃ ef, laco e l = some ef ∧ Explorado m0 d0 ef ∧
        (∀ m ∈ ef.saida, m.daExploracao = true) ∧
        ∀ q, q ∈ salasPercorridas e l ↔ e.atual <+: q ∧ q <+: ef.atual := by
  induction l with
  | nil =>
    intro e e1 hv hx _ ha hs
    refine ⟨e1, by simpa only [laco] using hv, hx, hs, ?_⟩
    intro q
    rw [ha]
    exact mem_singleton_iff_entre e.atual q
  | cons ch resto ih =>
    intro e e1 hv hx hne ha hs
    obtain ⟨n, c, a, b, hroom⟩ := (existe_iff _).mp hx.1
    have hcur : e1.mapa.em e1.atual = .mk n [] a b := by
      rw [hx.2.1]
      exact em_limparAte_self m0 e1.atual n c a b hroom
    simp only [laco, salasPercorridas, hv]
    rcases escolher_casos e1 n [] a b hcur ch with h | ⟨hex, h⟩ | ⟨hex, h⟩ | h
    · rw [h]
      refine ⟨{ e1 with saida := e1.saida ++ [.encerrar], encerrada := true }, by simp,
        ⟨hx.1, hx.2.1, hx.2.2⟩, ?_, ?_⟩
      · intro m hm
        rcases List.mem_append.mp hm with hm | hm
        · exact hs m hm
        · rw [List.mem_singleton.mp hm]; rfl
      · intro q
        simp only [if_true]
        rw [ha]
        exact mem_singleton_iff_entre e.atual q
    · have hl : (m0.em (e1.atual ++ [.esquerda])).existe = true := by
        rw [em_snoc_esquerda m0 e1.atual n c a b hroom]; exact hex
      obtain ⟨e3, hv3, hx3, he3, ha3, hs3⟩ := explorado_descer m0 d0 e1 (escolher e1 ch)
        .esquerda hx (by rw [h]) (by rw [h]) (by rw [h]) hl
      have hne2 : (escolher e1 ch).encerrada = false := by rw [h]; exact hne
      have ha2 : (escolher e1 ch).atual = e.atual ++ [.esquerda] := by rw [h, ← ha]
      simp only [hne2]
      obtain ⟨ef, hl2, hxf, hsf, hqf⟩ :=
        ih _ e3 hv3 hx3 (he3.trans hne2) ha3 (hs3 (by rw [h]; exact hs))
      refine ⟨ef, hl2, hxf, hsf, fun q => ?_⟩
      rw [ha2] at hqf
      have haf : e.atual ++ [.esquerda] <+: ef.atual :=
        ((hqf (e.atual ++ [.esquerda])).mp
          (by rw [← ha2]; cases resto <;> simp [salasPercorridas])).2
      exact mem_cons_iff_entre_descer e.atual q ef.atual .esquerda _ haf (hqf q)
    · have hl : (m0.em (e1.atual ++ [.direita])).existe = true := by
        rw [em_snoc_direita m0 e1.atual n c a b hroom]; exact hex
      obtain ⟨e3, hv3, hx3, he3, ha3, hs3⟩ := explorado_descer m0 d0 e1 (escolher e1 ch)
        .direita hx (by rw [h]) (by rw [h]) (by rw [h]) hl
      have hne2 : (escolher e1 ch).encerrada = false := by rw [h]; exact hne
      have ha2 : (escolher e1 ch).atual = e.atual ++ [.direita] := by rw [h, ← ha]
      simp only [hne2]
      obtain ⟨ef, hl2, hxf, hsf, hqf⟩ :=
        ih _ e3 hv3 hx3 (he3.trans hne2) ha3 (hs3 (by rw [h]; exact hs))
      refine ⟨ef, hl2, hxf, hsf, fun q => ?_⟩
      rw [ha2] at hqf
      have haf : e.atual ++ [.direita] <+: ef.atual :=
        ((hqf (e.atual ++ [.direita])).mp
          (by rw [← ha2]; cases resto <;> simp [salasPercorridas])).2
      exact mem_cons_iff_entre_descer e.atual q ef.atual .direita _ haf (hqf q)
    · obtain ⟨e3, hv3, hx3, he3, ha3, hs3⟩ := explorado_ficar m0 d0 e1 (escolher e1 ch)
        hx (by rw [h]) (by rw [h]) (by rw [h])
      have hne2 : (escolher e1 ch).encerrada = false := by rw [h]; exact hne
      have ha2 : (escolher e1 ch).atual = e.atual := by rw [h, ← ha]
      simp only [hne2]
      have hs2 : ∀ m ∈ (escolher e1 ch).saida, m.daExploracao = true := by
        rw [h]
        intro m hm
        rcases List.mem_append.mp hm with hm | hm
        · exact hs m hm
        · rw [List.mem_singleton.mp hm]; rfl
      obtain ⟨ef, hl2, hxf, hsf, hqf⟩ := ih _ e3 hv3 hx3 (he3.trans hne2) ha3 (hs3 hs2)
      refine ⟨ef, hl2, hxf, hsf, fun q => ?_⟩
      rw [ha2] at hqf
      have haf : e.atual <+: ef.atual :=
        ((hqf e.atual).mp (by rw [← ha2]; cases resto <;> simp [salasPercorridas])).2
      exact mem_cons_iff_entre_ficar e.atual q ef.atual _ haf (hqf q)

theorem explorarSalas_explorado (m0 : Sala) (d0 : PistaNode) (entrada : List Nat)
    (h0 : m0.existe = true) :
    ∃ ef, explorarSalas m0 d0 entrada = some ef ∧ Explorado m0 d0 ef ∧
      (∀ m ∈ ef.saida, m.daExploracao = true) ∧
      ∀ q, q ∈ salasEntradas m0 d0 entrada ↔ q <+: ef.atual := by
  obtain ⟨n, c, a, b, hroom⟩ := (existe_iff _).mp h0
  obtain ⟨e1, hv, h1m, h1a, h1p, h1e, h1s⟩ := visitar_geral
    { mapa := m0, atual := [], pistas := d0, saida := [.exploracaoIniciada],
      encerrada := false } n c a b (by rw [hroom]; rfl)
  have hx1 : Explorado m0 d0 e1 := by
    refine ⟨?_, ?_, ?_⟩
    · rw [h1a]; simpa [Sala.em] using h0
    · rw [h1m, h1a, hroom]; rfl
    · rw [h1p, h1a, hroom]; rfl
  have hs1 : ∀ m ∈ e1.saida, m.daExploracao = true := by
    refine h1s ?_
    intro m hm
    rw [List.mem_singleton.mp hm]; rfl
  obtain ⟨ef, hl, hx, hs, hq⟩ := laco_explorado m0 d0 entrada _ e1 hv hx1 h1e h1a hs1
  refine ⟨ef, hl, hx, hs, fun q => ?_⟩
  rw [salasEntradas, hq q]
  simp

/-! ## What the exploration does to the dossier and to the map -/

theorem mem_pistasAte (m : Sala) (p : List Lado) (x : CStr) :
    x ∈ m.pistasAte p ↔ x ≠ [] ∧ ∃ q, q <+: p ∧ (m.em q).pista_estatica = x := by
  induction p generalizing m with
  | nil =>
    cases m with
    | null =>
      simp only [Sala.pistasAte, List.not_mem_nil, false_iff, not_and, not_exists]
      intro hx q _ hq
      rw [em_null] at hq
      exact hx hq.symm
    | mk n c a b =>
      simp only [Sala.pistasAte, mem_naoVazia, List.prefix_nil]
      constructor
      · rintro ⟨hx, rfl⟩
        exact ⟨hx, [], rfl, rfl⟩
      · rintro ⟨hx, q, rfl, hq⟩
        exact ⟨hx, hq⟩
  | cons l p ih =>
    cases m with
    | null =>
      simp only [Sala.pistasAte, List.not_mem_nil, false_iff, not_and, not_exists]
      intro hx q _ hq
      rw [em_null] at hq
      exact hx hq.symm
    | mk n c a b =>
      cases l with
      | esquerda =>
        simp only [Sala.pistasAte, List.mem_append, mem_naoVazia, ih a]
        constructor
        · rintro (⟨hx, rfl⟩ | ⟨hx, q, hq, hc⟩)
          · exact ⟨hx, [], List.nil_prefix, rfl⟩
          · exact ⟨hx, .esquerda :: q, List.cons_prefix_cons.mpr ⟨rfl, hq⟩, hc⟩
        · rintro ⟨hx, q, hq, hc⟩
          rcases List.prefix_cons_iff.mp hq with rfl | ⟨t, rfl, ht⟩
          · exact Or.inl ⟨hx, hc⟩
          · exact Or.inr ⟨hx, t, ht, hc⟩
      | direita =>
        simp only [Sala.pistasAte, List.mem_append, mem_naoVazia, ih b]
        constructor
        · rintro (⟨hx, rfl⟩ | ⟨hx, q, hq, hc⟩)
          · exact ⟨hx, [], List.nil_prefix, rfl⟩
          · exact ⟨hx, .direita :: q, List.cons_prefix_cons.mpr ⟨rfl, hq⟩, hc⟩
        · rintro ⟨hx, q, hq, hc⟩
          rcases List.prefix_cons_iff.mp hq with rfl | ⟨t, rfl, ht⟩
          · exact Or.inl ⟨hx, hc⟩
          · exact Or.inr ⟨hx, t, ht, hc⟩

theorem limparAte_null (p : List Lado) : Sala.null.limparAte p = .null := by
  cases p <;> rfl

theorem em_limparAte (m : Sala) (p q : List Lado) :
    ((m.limparAte p).em q).existe = (m.em q).existe ∧
    ((m.limparAte p).em q).nome = (m.em q).nome ∧
    (q <+: p → ((m.limparAte p).em q).pista_estatica = []) ∧
    (¬ q <+: p → ((m.limparAte p).em q).pista_estatica = (m.em q).pista_estatica) := by
  induction q generalizing m p with
  | nil =>
    cases m with
    | null => simp [limparAte_null, Sala.em, Sala.pista_estatica]
    | mk n c a b =>
      rcases p with _ | ⟨l, p⟩
      · simp [Sala.limparAte, Sala.em, Sala.existe, Sala.nome, Sala.pista_estatica]
      · cases l <;>
          simp [Sala.limparAte, Sala.em, Sala.existe, Sala.nome, Sala.pista_estatica]
  | cons l q ih =>
    cases m with
    | null => simp [limparAte_null, Sala.em, Sala.pista_estatica]
    | mk n c a b =>
      rcases p with _ | ⟨l2, p⟩
      · cases l <;> simp [Sala.limparAte, Sala.em]
      · cases l <;> cases l2 <;>
          simp only [Sala.limparAte, Sala.em, List.cons_prefix_cons, true_and, false_and,
            reduceCtorEq, not_false_eq_true, forall_true_left, IsEmpty.forall_iff, and_self,
            implies_true, and_true]
        · exact ih a p
        · exact ih b p

/-- C16: on a map with a root room and any finite sequence of choices, `explorarSalas`
started with the empty dossier yields a dossier whose texts are exactly the non-empty
original clues of the rooms the player entered. -/
theorem dossier_is_clues_of_entered_rooms (mapa : Sala) (entrada : List Nat)
    (hmapa : mapa ≠ .null) :
    ∃ ef, explorarSalas mapa .null entrada = some ef ∧
      ∀ x, x ∈ exibirPistas ef.pistas ↔
        x ≠ [] ∧ ∃ q ∈ salasEntradas mapa .null entrada, (mapa.em q).pista_estatica = x := by
  have h0 : mapa.existe = true := by
    cases mapa with
    | null => exact absurd rfl hmapa
    | mk n c a b => rfl
  obtain ⟨ef, hl, ⟨-, -, hp⟩, -, hq⟩ := explorarSalas_explorado mapa .null entrada h0
  refine ⟨ef, hl, fun x => ?_⟩
  rw [hp, mem_exibirPistas_inserirTodas, mem_pistasAte]
  simp only [exibirPistas, List.not_mem_nil, false_or, hq]

/-- C17: on a map with a root room and any finite sequence of choices, the map after
`explorarSalas` has a room exactly where the map before has one, with the same name
(so every room keeps its children), every room the player entered has an empty clue
and every other room has its original clue. -/
theorem exploration_changes_only_clues_of_entered_rooms (mapa : Sala) (entrada : List Nat)
    (hmapa : mapa ≠ .null) :
    ∃ ef, explorarSalas mapa .null entrada = some ef ∧
      ∀ q, (ef.mapa.em q).existe = (mapa.em q).existe ∧
        (ef.mapa.em q).nome = (mapa.em q).nome ∧
        (q ∈ salasEntradas mapa .null entrada → (ef.mapa.em q).pista_estatica = []) ∧
        (q ∉ salasEntradas mapa .null entrada →
          (ef.mapa.em q).pista_estatica = (mapa.em q).pista_estatica) := by
  have h0 : mapa.existe = true := by
    cases mapa with
    | null => exact absurd rfl hmapa
    | mk n c a b => rfl
  obtain ⟨ef, hl, ⟨-, hm, -⟩, -, hq⟩ := explorarSalas_explorado mapa .null entrada h0
  refine ⟨ef, hl, fun q => ?_⟩
  rw [hm, hq q]
  exact em_limparAte mapa ef.atual q

theorem dossier_is_clues_of_entered_rooms_witness :
    mansao ≠ .null ∧
    ∃ ef, explorarSalas mansao .null [101, 120, 100, 115] = some ef ∧
      ∀ x, x ∈ exibirPistas ef.pistas ↔
        x ≠ [] ∧ ∃ q ∈ salasEntradas mansao .null [101, 120, 100, 115],
          (mansao.em q).pista_estatica = x :=
  ⟨by decide, dossier_is_clues_of_entered_rooms mansao [101, 120, 100, 115] (by decide)⟩

theorem exploration_changes_only_clues_of_entered_rooms_witness :
    mansao ≠ .null ∧
    ∃ ef, explorarSalas mansao .null [100, 100, 115] = some ef ∧
      ∀ q, (ef.mapa.em q).existe = (mansao.em q).existe ∧
        (ef.mapa.em q).nome = (mansao.em q).nome ∧
        (q ∈ salasEntradas mansao .null [100, 100, 115] →
          (ef.mapa.em q).pista_estatica = []) ∧
        (q ∉ salasEntradas mansao .null [100, 100, 115] →
          (ef.mapa.em q).pista_estatica = (mansao.em q).pista_estatica) :=
  ⟨by decide,
    exploration_changes_only_clues_of_entered_rooms mansao [100, 100, 115] (by decide)⟩

/-! ## Explorations of the mansion of `main` -/

theorem mem_caminhos (m : Sala) (p : List Lado) (h : (m.em p).existe = true) :
    p ∈ m.caminhos := by
  induction p generalizing m with
  | nil =>
    cases m with
    | null => simp [Sala.em, Sala.existe] at h
    | mk n c a b => simp [Sala.caminhos]
  | cons l p ih =>
    cases m with
    | null => simp [Sala.em, Sala.existe] at h
    | mk n c a b =>
      cases l with
      | esquerda =>
        simp only [Sala.caminhos, List.mem_cons, List.mem_append, List.mem_map]
        exact Or.inr (Or.inl ⟨p, ih a h, rfl⟩)
      | direita =>
        simp only [Sala.caminhos, List.mem_cons, List.mem_append, List.mem_map]
        exact Or.inr (Or.inr ⟨p, ih b h, rfl⟩)

theorem laco_fica_e_sai (bs : List Nat) (sair : Nat) (resto : List Nat)
    (hs : sair = 115 ∨ sair = 83) :
    ∀ (e : Exploracao) (n c : CStr) (a b : Sala), e.mapa.em e.atual = .mk n c a b →
      e.encerrada = false → (∀ ch ∈ bs, escolhaBloqueada a b ch) →
      ∃ ef, laco e (bs ++ sair :: resto) = some ef ∧ ef.atual = e.atual ∧
        ef.encerrada = true := by
  induction bs with
  | nil =>
    intro e n c a b hroom _ _
    obtain ⟨e1, hv, -, h1a, -, -, -⟩ := visitar_geral e n c a b hroom
    refine ⟨escolher e1 sair, ?_, ?_, ?_⟩
    · simp [laco, hv, escolher, hs]
    · simp [escolher, hs, h1a]
    · simp [escolher, hs]
  | cons ch bs ih =>
    intro e n c a b hroom hne hb
    obtain ⟨e1, hv, h1m, h1a, -, h1e, -⟩ := visitar_geral e n c a b hroom
    have hcur : e1.mapa.em e1.atual = .mk n [] a b := by
      rw [h1m, h1a]
      exact em_limpar e.mapa e.atual n c a b hroom
    have hesc := escolher_bloqueada e1 n [] a b ch hcur (hb ch (List.mem_cons_self _ _))
    have hne2 : (escolher e1 ch).encerrada = false := by rw [hesc]; exact h1e.trans hne
    obtain ⟨ef, hl, hfa, hfe⟩ := ih (escolher e1 ch) n [] a b (by rw [hesc]; exact hcur) hne2
      (fun x hx => hb x (List.mem_cons_of_mem _ hx))
    refine ⟨ef, ?_, ?_, hfe⟩
    · simp only [List.cons_append, laco, hv, hne2]
      exact hl
    · rw [hfa, hesc]; exact h1a

theorem contarPistasPorSuspeito_saida (sc : Bool) (t : PistaNode) (ht : HashTable)
    (acusado : CStr) (contador : Nat) :
    ∀ m ∈ (contarPistasPorSuspeito sc t ht acusado contador).2,
      (∃ p a, m = .valida p a) ∨ (∃ p s, m = .irrelevante p s) ∨ ∃ p, m = .semAssociacao p := by
  induction t generalizing contador with
  | null => simp [contarPistasPorSuspeito]
  | mk q l r ihl ihr =>
    intro m hm
    simp only [contarPistasPorSuspeito, List.mem_append] at hm
    rcases hm with (hm | hm) | hm
    · exact ihl _ m hm
    · split_ifs at hm <;> simp at hm <;> subst hm <;> simp
    · exact ihr _ m hm

theorem semPistas_not_mem_verificarSuspeitoFinal (sc : Bool) (t : PistaNode) (ht : HashTable)
    (acusado : CStr) (ht0 : t ≠ .null) :
    Msg.semPistas ∉ verificarSuspeitoFinal sc t ht acusado := by
  cases t with
  | null => exact absurd rfl ht0
  | mk q l r =>
    intro hm
    simp only [verificarSuspeitoFinal, List.mem_append, List.mem_cons, List.mem_singleton,
      List.not_mem_nil, reduceCtorEq, false_or, or_false] at hm
    rcases hm with hm | hm
    · rcases contarPistasPorSuspeito_saida sc _ ht acusado 0 _ hm with
        ⟨p, a, h⟩ | ⟨p, s, h⟩ | ⟨p, h⟩ <;> cases h
    · split_ifs at hm <;> simp at hm

theorem ne_null_of_mem_exibirPistas (t : PistaNode) (x : CStr) (h : x ∈ exibirPistas t) :
    t ≠ .null := by
  rintro rfl
  simp [exibirPistas] at h

theorem explorar_mansao (entrada : List Nat) :
    ∃ ef, explorarSalas mansao .null entrada = some ef ∧
      ef.atual ∈ mansao.caminhos ∧
      ef.pistas = inserirTodas .null (mansao.pistasAte ef.atual) ∧
      (∀ m ∈ ef.saida, m.daExploracao = true) ∧
      ∀ q, q ∈ salasEntradas mansao .null entrada ↔ q <+: ef.atual := by
  obtain ⟨ef, hl, ⟨hex, -, hp⟩, hs, hq⟩ :=
    explorarSalas_explorado mansao .null entrada (by decide)
  exact ⟨ef, hl, mem_caminhos mansao ef.atual hex, hp, hs, hq⟩

theorem caminhos_mansao (sc : Bool) :
    ∀ p ∈ mansao.caminhos,
      p.length ≤ 3 ∧
      (exibirPistas (inserirTodas .null (mansao.pistasAte p))).length ≤ 4 ∧
      cstr "Um relógio de bolso com as iniciais 'M.S.' foi derrubado na entrada."
        ∈ exibirPistas (inserirTodas .null (mansao.pistasAte p)) ∧
      (∀ x ∈ exibirPistas (inserirTodas .null (mansao.pistasAte p)),
        encontrarSuspeito sc (hash_suspeitos sc) x ∈
          [cstr "Mordomo", cstr "Cozinheira", cstr "Jardineiro", cstr "DESCONHECIDO"]) ∧
      ∀ a ∈ [cstr "Mordomo", cstr "Cozinheira", cstr "Jardineiro", cstr "DESCONHECIDO"],
        (exibirPistas (inserirTodas .null (mansao.pistasAte p))).countP
          (fun x => decide (encontrarSuspeito sc (hash_suspeitos sc) x = a)) ≤ 2 := by
  cases sc <;> decide!

theorem hall_sozinho (sc : Bool) :
    exibirPistas (inserirTodas .null (mansao.pistasAte []))
      = [cstr "Um relógio de bolso com as iniciais 'M.S.' foi derrubado na entrada."] ∧
    (contarPistasPorSuspeito sc (inserirTodas .null (mansao.pistasAte []))
      (hash_suspeitos sc) (cstr "Mordomo") 0).1 = 1 := by
  cases sc <;> decide!

/-- C11: on the mansion and registry of `main`, when the player types any number of
invalid choices (bytes other than e, E, d, D, s, S) and then quits, the exploration
ends in the Hall de Entrada without having entered another room, the dossier holds
exactly one text, the pocket-watch clue, the tally for `Mordomo` is 1 and
`verificarSuspeitoFinal` prints the FAILURE line. -/
theorem only_hall_visited (sc : Bool) (invalidas : List Nat) (sair : Nat)
    (hinv : ∀ ch ∈ invalidas, ch ∉ [115, 83, 101, 69, 100, 68])
    (hsair : sair = 115 ∨ sair = 83) :
    ∃ ef, explorarSalas mansao .null (invalidas ++ [sair]) = some ef ∧
      ef.encerrada = true ∧
      (∀ q ∈ salasEntradas mansao .null (invalidas ++ [sair]), q = []) ∧
      exibirPistas ef.pistas
        = [cstr "Um relógio de bolso com as iniciais 'M.S.' foi derrubado na entrada."] ∧
      (contarPistasPorSuspeito sc ef.pistas (hash_suspeitos sc) (cstr "Mordomo") 0).1 = 1 ∧
      Msg.fracasso (cstr "Mordomo")
        ∈ verificarSuspeitoFinal sc ef.pistas (hash_suspeitos sc) (cstr "Mordomo") := by
  obtain ⟨ef, hl, -, hp, -, hq⟩ := explorar_mansao (invalidas ++ [sair])
  obtain ⟨n, c, a, b, hroom⟩ := (existe_iff mansao).mp (by decide)
  have hb : ∀ ch ∈ invalidas, escolhaBloqueada a b ch := by
    intro ch hch
    have := hinv ch hch
    simp only [List.mem_cons, List.mem_singleton, List.not_mem_nil, or_false, not_or] at this
    obtain ⟨h1, h2, h3, h4, h5, h6⟩ := this
    exact ⟨by simp [h1, h2], by simp [h3, h4], by simp [h5, h6]⟩
  obtain ⟨ef2, hl2, ha2, he2⟩ := laco_fica_e_sai invalidas sair [] hsair
    { mapa := mansao, atual := [], pistas := .null, saida := [.exploracaoIniciada],
      encerrada := false } n c a b (by rw [hroom]; rfl) rfl hb
  have heq : ef2 = ef := by
    have := hl2.symm.trans hl
    exact Option.some.inj this
  subst heq
  have hat : ef2.atual = [] := ha2
  rw [hat] at hp hq
  obtain ⟨h1, h2⟩ := hall_sozinho sc
  rw [← hp] at h1 h2
  have hne : ef2.pistas ≠ .null := by
    apply ne_null_of_mem_exibirPistas _
      (cstr "Um relógio de bolso com as iniciais 'M.S.' foi derrubado na entrada.")
    rw [h1]
    exact List.mem_singleton.mpr rfl
  refine ⟨ef2, hl, he2, ?_, h1, h2, ?_⟩
  · intro q hq2
    exact List.prefix_nil.mp ((hq q).mp hq2)
  · exact (verificarSuspeitoFinal_veredito sc _ _ _ hne).2.mpr (by omega)

theorem only_hall_visited_witness :
    (∀ ch ∈ [120, 63], ch ∉ [115, 83, 101, 69, 100, 68]) ∧ ((115 : Nat) = 115 ∨ (115 : Nat) = 83) ∧
    ∃ ef, explorarSalas mansao .null ([120, 63] ++ [115]) = some ef ∧
      ef.encerrada = true ∧
      (∀ q ∈ salasEntradas mansao .null ([120, 63] ++ [115]), q = []) ∧
      exibirPistas ef.pistas
        = [cstr "Um relógio de bolso com as iniciais 'M.S.' foi derrubado na entrada."] ∧
      (contarPistasPorSuspeito true ef.pistas (hash_suspeitos true) (cstr "Mordomo") 0).1 = 1 ∧
      Msg.fracasso (cstr "Mordomo")
        ∈ verificarSuspeitoFinal true ef.pistas (hash_suspeitos true) (cstr "Mordomo") :=
  ⟨by decide, by decide, only_hall_visited true [120, 63] 115 (by decide) (by decide)⟩

/-- C19: on the mansion and registry of `main`, for every finite sequence of choices
and every accused name, the tally over the dossier left by `explorarSalas` (started
at the Hall with the empty dossier) is at most 2; the rooms entered are the rooms on
the way from the root to the last room, at most 4 rooms, and the dossier holds at
most 4 clues. -/
theorem tally_after_exploration_at_most_two (sc : Bool) (entrada : List Nat)
    (acusado : CStr) :
    ∃ ef, explorarSalas mansao .null entrada = some ef ∧
      (contarPistasPorSuspeito sc ef.pistas (hash_suspeitos sc) acusado 0).1 ≤ 2 ∧
      (∀ q, q ∈ salasEntradas mansao .null entrada ↔ q <+: ef.atual) ∧
      ef.atual.length + 1 ≤ 4 ∧
      (exibirPistas ef.pistas).length ≤ 4 := by
  obtain ⟨ef, hl, hc, hp, -, hq⟩ := explorar_mansao entrada
  obtain ⟨h1, h2, -, h4, h5⟩ := caminhos_mansao sc ef.atual hc
  rw [← hp] at h2 h4 h5
  refine ⟨ef, hl, ?_, hq, by omega, h2⟩
  rw [contarPistasPorSuspeito_fst, Nat.zero_add]
  by_cases ha : acusado ∈
      [cstr "Mordomo", cstr "Cozinheira", cstr "Jardineiro", cstr "DESCONHECIDO"]
  · exact h5 acusado ha
  · have h0 : (exibirPistas ef.pistas).countP
        (fun x => decide (encontrarSuspeito sc (hash_suspeitos sc) x = acusado)) = 0 := by
      rw [List.countP_eq_zero]
      intro x hx
      rw [decide_eq_true_eq]
      intro hxa
      exact ha (hxa ▸ h4 x hx)
    omega

/-- C20: on the mansion of `main`, whatever choices are typed (none at all included),
the Hall's clue is in the dossier of `explorarSalas` (it is there before the first
choice is read), so the dossier is never empty and `main` never prints the line of
the empty-dossier branch of `verificarSuspeitoFinal`. -/
theorem dossier_never_empty_in_main (sc : Bool) (entrada : List Nat) (acusado : CStr) :
    (∃ e0, explorarSalas mansao .null [] = some e0 ∧
      e0.pistas = criarPistaNode
        (cstr "Um relógio de bolso com as iniciais 'M.S.' foi derrubado na entrada.")) ∧
    (∃ ef, explorarSalas mansao .null entrada = some ef ∧ ef.pistas ≠ .null ∧
      cstr "Um relógio de bolso com as iniciais 'M.S.' foi derrubado na entrada."
        ∈ exibirPistas ef.pistas) ∧
    ∃ saida, main sc entrada acusado = some saida ∧ Msg.semPistas ∉ saida := by
  obtain ⟨ef, hl, hc, hp, hs, -⟩ := explorar_mansao entrada
  obtain ⟨-, -, h3, -, -⟩ := caminhos_mansao sc ef.atual hc
  rw [← hp] at h3
  have hne : ef.pistas ≠ .null := ne_null_of_mem_exibirPistas _ _ h3
  refine ⟨⟨_, rfl, by decide!⟩, ⟨ef, hl, hne, h3⟩, ?_⟩
  have hsem : Msg.semPistas ∉ ef.saida := fun hm => by
    have := hs _ hm
    simp [Msg.daExploracao] at this
  simp only [main, hl]
  split_ifs
  · refine ⟨_, rfl, ?_⟩
    simp only [List.mem_append, List.mem_singleton, List.mem_map, reduceCtorEq, and_false,
      exists_false, or_false, false_or, not_or]
    exact ⟨hsem, semPistas_not_mem_verificarSuspeitoFinal sc _ _ _ hne⟩
  · exact ⟨_, rfl, hsem⟩

/-! ## One step of the loop, the classification of a clue, the notification, the hash -/

/-- C12: one step of the loop of `explorarSalas` in a room with children `esq` and
`dir`, on the byte `c` typed: on `s` or `S` the loop is left (whatever the room and
whatever is typed afterwards); else on `e` or `E` with a left child the player moves
to the left child; else on `d` or `D` with a right child the player moves to the
right child; in every other case the player stays and the invalid-or-blocked line is
printed.  A room without children is left only by quitting. -/
theorem step_of_the_exploration_loop (e : Exploracao) (nome pista : CStr) (esq dir : Sala)
    (c : Nat) (hsala : e.mapa.em e.atual = .mk nome pista esq dir) :
    ((c = 115 ∨ c = 83) →
      escolher e c = { e with saida := e.saida ++ [.encerrar], encerrada := true } ∧
      ∀ e0 resto, visitar e0 = some e → laco e0 (c :: resto) = some (escolher e c)) ∧
    (¬ (c = 115 ∨ c = 83) → (c = 101 ∨ c = 69) → esq.existe = true →
      escolher e c = { e with atual := e.atual ++ [.esquerda] } ∧
      e.mapa.em (e.atual ++ [.esquerda]) = esq) ∧
    (¬ (c = 115 ∨ c = 83) → (c = 100 ∨ c = 68) → dir.existe = true →
      escolher e c = { e with atual := e.atual ++ [.direita] } ∧
      e.mapa.em (e.atual ++ [.direita]) = dir) ∧
    (escolhaBloqueada esq dir c →
      escolher e c = { e with saida := e.saida ++ [.escolhaInvalida] }) ∧
    (esq.existe = false → dir.existe = false → ¬ (c = 115 ∨ c = 83) →
      (escolher e c).atual = e.atual) := by
  refine ⟨?_, ?_, ?_, ?_, ?_⟩
  · intro hs
    have h1 : escolher e c = { e with saida := e.saida ++ [.encerrar], encerrada := true } := by
      simp only [escolher, if_pos hs]
    refine ⟨h1, fun e0 resto hv => ?_⟩
    simp only [laco, hv]
    rw [h1]
    rfl
  · intro hs hc hex
    refine ⟨?_, em_snoc_esquerda e.mapa e.atual nome pista esq dir hsala⟩
    simp only [escolher, if_neg hs, hsala]
    rw [if_pos ⟨hc, hex⟩]
  · intro hs hc hex
    refine ⟨?_, em_snoc_direita e.mapa e.atual nome pista esq dir hsala⟩
    have hne : ¬ ((c = 101 ∨ c = 69) ∧ esq.existe = true) := by
      rintro ⟨h, -⟩
      omega
    simp only [escolher, if_neg hs, hsala]
    rw [if_neg hne, if_pos ⟨hc, hex⟩]
  · exact escolher_bloqueada e nome pista esq dir c hsala
  · intro h1 h2 hs
    have hb : escolhaBloqueada esq dir c := ⟨hs, by simp [h1], by simp [h2]⟩
    rw [escolher_bloqueada e nome pista esq dir c hsala hb]

theorem step_of_the_exploration_loop_witness :
    (escolher ⟨ligar (criarSala (cstr "Hall") (cstr "pista")) (criarSala (cstr "Sala") [])
        .null, [], .null, [], false⟩ 101).atual = [.esquerda] ∧
    (escolher ⟨ligar (criarSala (cstr "Hall") (cstr "pista")) (criarSala (cstr "Sala") [])
        .null, [], .null, [], false⟩ 100).saida = [.escolhaInvalida] :=
  ⟨congrArg Exploracao.atual ((step_of_the_exploration_loop
      ⟨ligar (criarSala (cstr "Hall") (cstr "pista")) (criarSala (cstr "Sala") []) .null,
        [], .null, [], false⟩
      (cstr "Hall") (cstr "pista") (criarSala (cstr "Sala") []) .null 101
      (by decide)).2.1 (by decide) (by decide) (by decide)).1,
   congrArg Exploracao.saida ((step_of_the_exploration_loop
      ⟨ligar (criarSala (cstr "Hall") (cstr "pista")) (criarSala (cstr "Sala") []) .null,
        [], .null, [], false⟩
      (cstr "Hall") (cstr "pista") (criarSala (cstr "Sala") []) .null 100
      (by decide)).2.2.2.1 (by decide))⟩

/-- C13 at a clue without registry entry and the accused name `DESCONHECIDO`: the
lookup returns the sentinel, yet `contarPistasPorSuspeito` classifies the clue as
valid evidence and increments the counter, instead of classifying it as
unassociated. -/
theorem unassociated_clue_counted_for_accused_DESCONHECIDO :
    encontrarSuspeito true (hash_suspeitos true)
      (cstr "Um pedaço de pano manchado de vinho tinto foi deixado perto da escada.")
      = DESCONHECIDO ∧
    contarPistasPorSuspeito true
      (criarPistaNode
        (cstr "Um pedaço de pano manchado de vinho tinto foi deixado perto da escada."))
      (hash_suspeitos true) (cstr "DESCONHECIDO") 0
      = (1, [.valida
          (cstr "Um pedaço de pano manchado de vinho tinto foi deixado perto da escada.")
          (cstr "DESCONHECIDO")]) ∧
    contarPistasPorSuspeito false
      (criarPistaNode
        (cstr "Um pedaço de pano manchado de vinho tinto foi deixado perto da escada."))
      (hash_suspeitos false) (cstr "DESCONHECIDO") 0
      = (1, [.valida
          (cstr "Um pedaço de pano manchado de vinho tinto foi deixado perto da escada.")
          (cstr "DESCONHECIDO")]) := by
  decide!

/-- For an accused name other than the string `DESCONHECIDO`, a clue of the dossier
(here a dossier of one node) gets exactly one classification line: unassociated iff
the lookup returns the sentinel, valid evidence iff the lookup result is the accused
name, irrelevant iff it is neither; the counter grows by one for valid evidence only. -/
theorem classification_for_accused_other_than_sentinel (sc : Bool) (ht : HashTable)
    (p acusado : CStr) (n : Nat) (hac : acusado ≠ DESCONHECIDO) :
    (∃ m, (contarPistasPorSuspeito sc (criarPistaNode p) ht acusado n).2 = [m]) ∧
    ((contarPistasPorSuspeito sc (criarPistaNode p) ht acusado n).2 = [.semAssociacao p]
      ↔ encontrarSuspeito sc ht p = DESCONHECIDO) ∧
    ((contarPistasPorSuspeito sc (criarPistaNode p) ht acusado n).2 = [.valida p acusado]
      ↔ encontrarSuspeito sc ht p = acusado) ∧
    ((contarPistasPorSuspeito sc (criarPistaNode p) ht acusado n).2
        = [.irrelevante p (encontrarSuspeito sc ht p)]
      ↔ encontrarSuspeito sc ht p ≠ acusado ∧ encontrarSuspeito sc ht p ≠ DESCONHECIDO) ∧
    (contarPistasPorSuspeito sc (criarPistaNode p) ht acusado n).1
      = n + if encontrarSuspeito sc ht p = acusado then 1 else 0 := by
  simp only [criarPistaNode, contarPistasPorSuspeito, List.nil_append, List.append_nil,
    strcmp_eq_zero, ne_eq]
  by_cases h1 : encontrarSuspeito sc ht p = acusado
  · have h2 : encontrarSuspeito sc ht p ≠ DESCONHECIDO := fun h => hac (h1.symm.trans h)
    simp [h1, h2, hac]
  · by_cases h2 : encontrarSuspeito sc ht p = DESCONHECIDO
    · have h3 : ¬ DESCONHECIDO = acusado := fun h => hac h.symm
      simp [h2, h3]
    · simp [h1, h2]

theorem inserirPista_ausente (d : PistaNode) (t : CStr) (h : t ∉ exibirPistas d) :
    (inserirPista d t).2 = [.pistaEncontrada t] := by
  induction d with
  | null => rfl
  | mk q l r ihl ihr =>
    simp only [exibirPistas, List.mem_append, List.mem_cons, not_or] at h
    simp only [inserirPista]
    split_ifs with h1 h2
    · exact ihl h.1
    · exact ihr h.2.2
    · exact absurd (strcmp_eq_zero.mp (by omega)) h.2.1

/-- C14: on a dossier built from the empty one by `inserirPista` calls, a call of
`inserirPista` with the text `t` prints the added-to-dossier line exactly once (and
nothing else) when no node holds `t`, and prints nothing when a node holds `t`. -/
theorem notification_only_for_new_text (pistas : List CStr) (t : CStr)
    (_hcabe : ∀ q ∈ pistas, cabe 100 q) (_ht : cabe 100 t) :
    (inserirPista (inserirTodas .null pistas) t).2
      = if t ∈ exibirPistas (inserirTodas .null pistas) then [] else [.pistaEncontrada t] := by
  split_ifs with h
  · rw [inserirPista_presente _ t (ordenada_inserirTodas .null pistas trivial) h]
  · exact inserirPista_ausente _ t h

theorem notification_only_for_new_text_witness :
    (∀ q ∈ [cstr "b", cstr "a"], cabe 100 q) ∧ cabe 100 (cstr "c") ∧
    (inserirPista (inserirTodas .null [cstr "b", cstr "a"]) (cstr "c")).2
      = [.pistaEncontrada (cstr "c")] :=
  ⟨by decide, by decide,
    (notification_only_for_new_text [cstr "b", cstr "a"] (cstr "c") (by decide)
      (by decide)).trans (by decide)⟩

/-! ## The value of `hash` -/

theorem hashLoop_eq (sc : Bool) (t : CStr) :
    ∀ v : Nat, v < 2 ^ 32 →
      ((hashLoop sc t v : Nat) : Int) = ((v : Int) + (t.map (charVal sc)).sum) % 2 ^ 32 := by
  induction t with
  | nil =>
    intro v hv
    simp only [hashLoop, List.map_nil, List.sum_nil, add_zero]
    omega
  | cons c r ih =>
    intro v hv
    have hnn : 0 ≤ ((v : Int) + charVal sc c) % 2 ^ 32 := Int.emod_nonneg _ (by norm_num)
    have hlt : ((v : Int) + charVal sc c) % 2 ^ 32 < 2 ^ 32 := Int.emod_lt_of_pos _ (by norm_num)
    have hv2 : (((v : Int) + charVal sc c) % 2 ^ 32).toNat < 2 ^ 32 := by omega
    simp only [hashLoop, List.map_cons, List.sum_cons]
    rw [ih _ hv2, Int.toNat_of_nonneg hnn, Int.emod_add_emod, add_assoc]

theorem sum_charVal_eq (sc : Bool) (t : CStr) (h : sc = false ∨ ∀ b ∈ t, b < 128) :
    (t.map (charVal sc)).sum = ((t.sum : Nat) : Int) := by
  induction t with
  | nil => rfl
  | cons c r ih =>
    have hr : sc = false ∨ ∀ b ∈ r, b < 128 :=
      h.imp id (fun h b hb => h b (List.mem_cons_of_mem _ hb))
    have hc : charVal sc c = (c : Int) := by
      rcases h with h | h
      · simp [charVal, h]
      · have := h c (List.mem_cons_self _ _)
        simp only [charVal, Bool.and_eq_true, decide_eq_true_eq]
        rw [if_neg]
        omega
    simp only [List.map_cons, List.sum_cons, ih hr, hc, Nat.cast_add]

theorem sum_le_of_bytes (t : CStr) (h : ∀ b ∈ t, 0 < b ∧ b < 256) :
    t.sum ≤ 255 * t.length := by
  induction t with
  | nil => simp
  | cons c r ih =>
    have hc := (h c (List.mem_cons_self _ _)).2
    have hr := ih (fun b hb => h b (List.mem_cons_of_mem _ hb))
    simp only [List.sum_cons, List.length_cons]
    omega

theorem hash_eq (sc : Bool) (t : CStr) :
    (hash sc t : Int) = ((t.map (charVal sc)).sum % 2 ^ 32) % 10 := by
  have h := hashLoop_eq sc t 0 (by norm_num)
  simp only [hash, HASH_SIZE, Nat.cast_zero, zero_add] at h ⊢
  rw [← h]
  norm_cast

/-- C15, as stated, fails where plain `char` is signed: for the text `ó` (bytes 195,
179) `hash` gives 8, while the sum of the byte codes is 4 modulo 10 and the sum of
the signed `char` values is 2 modulo 10; for the pocket-watch clue of `main` it
gives 4, while the sum of the byte codes is 6 modulo 10. -/
theorem hash_is_not_byte_sum_mod_ten :
    hash true (cstr "ó") = 8 ∧ (cstr "ó").sum % 10 = 4 ∧
    ((cstr "ó").map (charVal true)).sum % 10 = 2 ∧
    hash true (cstr "ó") ≠ (cstr "ó").sum % 10 ∧
    hash true (cstr "Um relógio de bolso com as iniciais 'M.S.' foi derrubado na entrada.")
      ≠ (cstr "Um relógio de bolso com as iniciais 'M.S.' foi derrubado na entrada.").sum
          % 10 := by
  decide!

/-- C15, amended: for every clue text fitting the 100-byte field, `hash` returns a
value in 0..9, namely the sum of the `char` values of the bytes (a byte of 128 or
more counts 256 less where plain `char` is signed) reduced modulo 2^32 and then
modulo 10; this is the sum of the byte codes modulo 10 where plain `char` is
unsigned or the text is ASCII.  `inserirNaHash` changes the chain of exactly the
bucket with this index and `encontrarSuspeito` searches exactly that chain. -/
theorem hash_is_wrapped_char_sum_mod_ten (sc : Bool) (t : CStr) (ht : cabe 100 t) :
    hash sc t < 10 ∧
    (hash sc t : Int) = ((t.map (charVal sc)).sum % 2 ^ 32) % 10 ∧
    ((sc = false ∨ ∀ b ∈ t, b < 128) → hash sc t = t.sum % 10) ∧
    (∀ (tab : HashTable) (s : CStr) (i : Fin HASH_SIZE),
      (inserirNaHash sc tab t s).tabela i
        = if i.val = hash sc t then ⟨t, s⟩ :: tab.tabela i else tab.tabela i) ∧
    (∀ (tab : HashTable) (i : Fin HASH_SIZE), i.val = hash sc t →
      encontrarSuspeito sc tab t = procurar t (tab.tabela i)) := by
  refine ⟨Nat.mod_lt _ (by decide), hash_eq sc t, ?_, ?_, ?_⟩
  · intro h
    have hs : t.sum ≤ 255 * t.length := sum_le_of_bytes t ht.2
    have hl : t.length < 100 := ht.1
    have he := hash_eq sc t
    rw [sum_charVal_eq sc t h] at he
    omega
  · intro tab s i
    have hi : i = indice sc t ↔ i.val = hash sc t := by
      rw [Fin.ext_iff]
      rfl
    by_cases h : i = indice sc t
    · subst h
      simp [inserirNaHash, hi.mp rfl]
    · have h2 : ¬ i.val = hash sc t := fun h2 => h (hi.mpr h2)
      simp [inserirNaHash, Function.update_noteq h, h2]
  · intro tab i hi
    have : i = indice sc t := Fin.ext hi
    subst this
    rfl

theorem hash_is_wrapped_char_sum_mod_ten_witness :
    cabe 100 (cstr "Um diário menciona um encontro secreto no jardim.") ∧
    hash true (cstr "Um diário menciona um encontro secreto no jardim.") < 10 :=
  ⟨by decide,
    (hash_is_wrapped_char_sum_mod_ten true
      (cstr "Um diário menciona um encontro secreto no jardim.") (by decide)).1⟩

/-! ## The mansion of `main` -/

/-- C18, as stated, fails: the mansion built in `main` does not have 10 rooms, and the
number of its rooms with a non-empty clue is not 6. -/
theorem mansion_has_not_ten_rooms_and_six_clues :
    mansao.numSalas ≠ 10 ∧ mansao.pistas.length ≠ 6 := by
  decide!

/-- C18, amended: the mansion built in `main` has exactly 11 rooms, of which exactly 8
hold a non-empty clue, wired as Hall de Entrada -> left Sala de Estar -> (Cozinha ->
(Despensa, Porão), Biblioteca -> (Quarto de Hóspedes, Sótão)), right Jardim de Inverno
-> (Escritório, Área da Piscina). -/
theorem mansion_has_eleven_rooms_and_eight_clues :
    mansao.numSalas = 11 ∧ mansao.pistas.length = 8 ∧
    mansao.caminhos.map (fun p => (p, (mansao.em p).nome)) =
      [([], cstr "Hall de Entrada"),
       ([.esquerda], cstr "Sala de Estar"),
       ([.esquerda, .esquerda], cstr "Cozinha"),
       ([.esquerda, .esquerda, .esquerda], cstr "Despensa"),
       ([.esquerda, .esquerda, .direita], cstr "Porão"),
       ([.esquerda, .direita], cstr "Biblioteca"),
       ([.esquerda, .direita, .esquerda], cstr "Quarto de Hóspedes"),
       ([.esquerda, .direita, .direita], cstr "Sótão"),
       ([.direita], cstr "Jardim de Inverno"),
       ([.direita, .esquerda], cstr "Escritório"),
       ([.direita, .direita], cstr "Área da Piscina")] ∧
    mansao.caminhos.filter (fun p => decide ((mansao.em p).pista_estatica ≠ [])) =
      [[], [.esquerda, .esquerda], [.esquerda, .esquerda, .esquerda],
       [.esquerda, .esquerda, .direita], [.esquerda, .direita],
       [.esquerda, .direita, .direita], [.direita], [.direita, .direita]] := by
  decide!

end DetectiveQuest
